import Mathlib

/-!
# switchfast: native process / window enumeration

A shallow embedding of `src/native/windows_process_manager_secure.cc` and
`src/native/windows.cc`.

Modelling conventions

* `std::wstring` is a `List Nat` of UTF-16 code units, `std::string` a `List Nat`
  of bytes.  `DWORD`, `HANDLE`, `HWND` values are natural numbers; `nullptr` is `0`.
* The operating system is a record `OS` of the Win32 entry points the code calls.
  Each entry point is an arbitrary function, so a theorem quantified over `OS`
  holds for every behaviour of the system.
* `GetRunningApplicationsSecure` and `MinimizeApplicationSecure` record the calls they
  make on processes and windows in a call log (`List OsCall`), which is how resource and
  side-effect properties are stated.
* The `catch (const std::exception&)` handlers are reachable only through a
  failing allocation (`std::bad_alloc`) or a failing N-API call; allocation and
  N-API object construction are total in this model.
-/

set_option maxRecDepth 100000

namespace SwitchFast

/-! ## Constants -/

/-- `const DWORD MAX_PROCESSES = 4096;` -/
def MAX_PROCESSES : Nat := 4096

/-- `const DWORD MAX_FILENAME_LENGTH = 32768;` -/
def MAX_FILENAME_LENGTH : Nat := 32768

/-- `const uint32_t MAX_RESULTS = 1000;` -/
def MAX_RESULTS : Nat := 1000

/-- `SecureEnumWindowsData::MAX_WINDOWS = 100`. -/
def MAX_WINDOWS : Nat := 100

/-- `std::numeric_limits<int>::max()`, also `std::numeric_limits<int32_t>::max()`. -/
def INT_MAX : Nat := 2147483647

/-- `sizeof(DWORD)`. -/
def SIZEOF_DWORD : Nat := 4

/-- `WS_MINIMIZEBOX` (`0x00020000L`). -/
def WS_MINIMIZEBOX : Nat := 0x20000

/-- The wide character `L'\\'`. -/
def BACKSLASH : Nat := 92

/-- Code units (or bytes) of an ASCII literal. -/
def lit (s : String) : List Nat := s.toList.map Char.toNat

/-- `"<path_too_long>"`. -/
def PATH_TOO_LONG : List Nat := lit "<path_too_long>"

/-- `"<conversion_failed>"`. -/
def CONVERSION_FAILED : List Nat := lit "<conversion_failed>"

/-- `L"<unknown>"`. -/
def UNKNOWN : List Nat := lit "<unknown>"

/-! ## The operating system -/

/-- The Win32 entry points used by the code, as seen during one call. -/
structure OS where
  /-- `WideCharToMultiByte(CP_UTF8, 0, src, cch, buf, cb, 0, 0)`: the returned `int`
  and the bytes stored into `buf` (nothing is stored when `cb = 0`). -/
  WideCharToMultiByte : (src : List Nat) → (cch : Int) → (cb : Nat) → Int × List Nat
  /-- `EnumProcesses(buf, cb, &cbNeeded)`: `none` when it returns `FALSE`, otherwise the
  identifiers the system has to report and the byte count stored in `cbNeeded`. -/
  EnumProcesses : (cb : Nat) → Option (List Nat × Nat)
  /-- `OpenProcess(PROCESS_QUERY_LIMITED_INFORMATION, FALSE, pid)`; `0` is `nullptr`. -/
  OpenProcess : (pid : Nat) → Nat
  /-- `GetModuleFileNameExW(h, nullptr, buf, nSize)`: the returned `DWORD` and the
  code units stored into `buf`. -/
  GetModuleFileNameExW : (h : Nat) → (nSize : Nat) → Nat × List Nat
  /-- The top-level windows, in the order `EnumWindows` presents them. -/
  topLevel : List Nat
  /-- `IsWindow(hwnd)`. -/
  IsWindow : (hwnd : Nat) → Bool
  /-- `GetWindowThreadProcessId(hwnd, &pid)`: the returned thread id and the process id. -/
  GetWindowThreadProcessId : (hwnd : Nat) → Nat × Nat
  /-- `IsWindowVisible(hwnd)`. -/
  IsWindowVisible : (hwnd : Nat) → Bool
  /-- `GetWindowLong(hwnd, GWL_STYLE)`. -/
  GetWindowStyle : (hwnd : Nat) → Nat
  /-- The text of the window's title bar. -/
  windowText : (hwnd : Nat) → List Nat

/-- A call that touches a process or a window. -/
inductive OsCall where
  | OpenProcess (pid h : Nat)
  | CloseHandle (h : Nat)
  | GetModuleFileNameExW (h : Nat)
  | IsWindow (hwnd : Nat)
  | GetWindowThreadProcessId (hwnd : Nat)
  | IsWindowVisible (hwnd : Nat)
  | GetWindowLong (hwnd : Nat)
  | ShowWindowMinimize (hwnd : Nat)
  deriving DecidableEq, Repr

/-! ## Buffers -/

/-- A zero-initialised buffer of `size` cells after `written` has been stored at its
start (`std::vector<T> buf(size)` handed to an API that fills it).  What does not fit is
dropped, and a cell outside the buffer reads as `0`. -/
def filled (size : Nat) (written : List Nat) : Nat → Nat :=
  fun i => if i < size then written.getD i 0 else 0

/-- The cells `buf[0 .. n)`: `std::string(buf.data(), n)`. -/
def readN (buf : Nat → Nat) (n : Nat) : List Nat :=
  (List.range n).map buf

/-- The cells before the first `0`, looking at no more than `size` cells: a string built
from a null-terminated buffer. -/
def readCStr (buf : Nat → Nat) : (size : Nat) → (i : Nat) → List Nat
  | 0, _ => []
  | size + 1, i => if buf i = 0 then [] else buf i :: readCStr buf size (i + 1)

/-! ## `SafeWideToUTF8` -/

/-- `std::string SafeWideToUTF8(const std::wstring& wstr)`. -/
def SafeWideToUTF8 (os : OS) (wstr : List Nat) : List Nat :=
  if wstr = [] then []
  else if wstr.length > INT_MAX then PATH_TOO_LONG
  else
    let size_needed := (os.WideCharToMultiByte wstr wstr.length 0).1
    if size_needed ≤ 0 then CONVERSION_FAILED
    else if size_needed > 65536 then PATH_TOO_LONG
    else
      let call := os.WideCharToMultiByte wstr wstr.length size_needed.toNat
      let buffer := filled size_needed.toNat call.2
      let result := call.1
      if result ≤ 0 then CONVERSION_FAILED
      else readN buffer result.toNat

/-! ## `SafeGetProcessName` -/

/-- `std::wstring SafeGetProcessName(HANDLE hProcess)`. -/
def SafeGetProcessName (os : OS) (hProcess : Nat) : List Nat :=
  let call := os.GetModuleFileNameExW hProcess MAX_FILENAME_LENGTH
  let processName := filled MAX_FILENAME_LENGTH call.2
  let result := call.1
  if result = 0 then UNKNOWN
  else
    let processName :=
      if result < MAX_FILENAME_LENGTH then Function.update processName result 0
      else Function.update processName (MAX_FILENAME_LENGTH - 1) 0
    readCStr processName MAX_FILENAME_LENGTH 0

/-! ## `GetRunningApplicationsSecure` -/

/-- `std::wstring::find_last_of(c)`: the last position holding `c`; `none` is `npos`. -/
def find_last_of (s : List Nat) (c : Nat) : Option Nat :=
  match s with
  | [] => none
  | x :: xs =>
    match find_last_of xs c with
    | some p => some (p + 1)
    | none => if x = c then some 0 else none

/-- Lines 169-177: the file name taken from `processPath`, cut to 255 code units. -/
def fileNameOf (processPath : List Nat) : List Nat :=
  let lastSlash := find_last_of processPath BACKSLASH
  let fileName :=
    match lastSlash with
    | some p => processPath.drop (p + 1)
    | none => processPath
  if fileName.length > 255 then fileName.take 255 else fileName

/-- The object stored into the result array (`id`, `name`, `title`, `path`). -/
structure ProcessObj where
  id : Nat
  name : List Nat
  title : List Nat
  path : List Nat
  deriving DecidableEq, Repr

/-- Loop state of `GetRunningApplicationsSecure`. -/
structure EnumState where
  result : List ProcessObj
  resultIndex : Nat
  calls : List OsCall
  deriving DecidableEq, Repr

/-- `~ProcessHandleGuard() { if (handle) CloseHandle(handle); }` -/
def ProcessHandleGuard_dtor (handle : Nat) : List OsCall :=
  if handle ≠ 0 then [OsCall.CloseHandle handle] else []

/-- Lines 161-192, the scope in which `guard` lives: the object to store (`none` when the
scope is left by `continue`) and the calls made. -/
def guardedScope (os : OS) (pid hProcess : Nat) : Option ProcessObj × List OsCall :=
  let processPath := SafeGetProcessName os hProcess
  let calls := [OsCall.GetModuleFileNameExW hProcess]
  if processPath = UNKNOWN ∨ processPath = [] then (none, calls)
  else
    let fileName := fileNameOf processPath
    if pid > INT_MAX then (none, calls)
    else
      (some { id := pid, name := SafeWideToUTF8 os fileName, title := [],
              path := SafeWideToUTF8 os processPath }, calls)

/-- One pass through the body of the `for` loop (lines 138-197) for `processes[i] = pid`. -/
def iteration (os : OS) (pid : Nat) (st : EnumState) : EnumState :=
  if pid = 0 then st
  else
    let hProcess := os.OpenProcess pid
    let st := { st with calls := st.calls ++ [OsCall.OpenProcess pid hProcess] }
    if hProcess = 0 then st
    else
      let scope := guardedScope os pid hProcess
      let st := { st with calls := st.calls ++ scope.2 }
      let st :=
        match scope.1 with
        | some obj => { st with result := st.result ++ [obj], resultIndex := st.resultIndex + 1 }
        | none => st
      { st with calls := st.calls ++ ProcessHandleGuard_dtor hProcess }

/-- The loop `for (i = 0; i < cProcesses && resultIndex < MAX_RESULTS; i++)`, given the cells
`processes[i], processes[i+1], ..., processes[cProcesses-1]` still to visit. -/
def forLoop (os : OS) : List Nat → EnumState → EnumState
  | [], st => st
  | pid :: rest, st =>
    if st.resultIndex < MAX_RESULTS then forLoop os rest (iteration os pid st) else st

/-- What a call of `GetRunningApplicationsSecure` yields: the returned array and the calls made. -/
structure ProcessListing where
  result : List ProcessObj
  calls : List OsCall
  deriving DecidableEq, Repr

/-- `cProcesses` as computed in lines 121-131 from the reported `cbNeeded`. -/
def cProcessesOf (cbNeeded : Nat) : Nat :=
  let cbNeeded :=
    if cbNeeded > MAX_PROCESSES * SIZEOF_DWORD then MAX_PROCESSES * SIZEOF_DWORD else cbNeeded
  let cProcesses := cbNeeded / SIZEOF_DWORD
  if cProcesses > MAX_PROCESSES then MAX_PROCESSES else cProcesses

/-- `Napi::Array GetRunningApplicationsSecure(const Napi::CallbackInfo& info)`. -/
def GetRunningApplicationsSecure (os : OS) : ProcessListing :=
  match os.EnumProcesses (MAX_PROCESSES * SIZEOF_DWORD) with
  | none => { result := [], calls := [] }
  | some (table, cbNeeded) =>
    let processes := filled MAX_PROCESSES table
    let cProcesses := cProcessesOf cbNeeded
    let st := forLoop os (readN processes cProcesses) { result := [], resultIndex := 0, calls := [] }
    { result := st.result, calls := st.calls }

/-! ## `MinimizeApplicationSecure` -/

/-- `struct SecureEnumWindowsData`. -/
structure SecureEnumWindowsData where
  targetProcessId : Nat
  found : Bool
  windowCount : Nat
  deriving DecidableEq, Repr

/-- What the window search carries along: the callback's data and the calls made so far. -/
structure SearchState where
  data : SecureEnumWindowsData
  calls : List OsCall
  deriving DecidableEq, Repr

/-- `BOOL CALLBACK SecureEnumWindowsProc(HWND hwnd, LPARAM lParam)`: the returned `BOOL`
and the state left behind. -/
def SecureEnumWindowsProc (os : OS) (hwnd : Nat) (s : SearchState) : Bool × SearchState :=
  let count := s.data.windowCount
  let s := { s with data := { s.data with windowCount := (s.data.windowCount + 1) % 2 ^ 32 } }
  if count ≥ MAX_WINDOWS then (false, s)
  else
    let s := { s with calls := s.calls ++ [OsCall.IsWindow hwnd] }
    if os.IsWindow hwnd = false then (true, s)
    else
      let threadId := (os.GetWindowThreadProcessId hwnd).1
      let windowProcessId := (os.GetWindowThreadProcessId hwnd).2
      let s := { s with calls := s.calls ++ [OsCall.GetWindowThreadProcessId hwnd] }
      if threadId = 0 ∨ windowProcessId = 0 then (true, s)
      else if windowProcessId = s.data.targetProcessId then
        let s := { s with calls := s.calls ++ [OsCall.IsWindowVisible hwnd] }
        if os.IsWindowVisible hwnd = true then
          let s := { s with calls := s.calls ++ [OsCall.GetWindowLong hwnd] }
          if Nat.land (os.GetWindowStyle hwnd) WS_MINIMIZEBOX ≠ 0 then
            (false, { data := { s.data with found := true },
                      calls := s.calls ++ [OsCall.ShowWindowMinimize hwnd] })
          else (false, s)
        else (true, s)
      else (true, s)

/-- `EnumWindows(proc, lParam)`: the callback is invoked on each top-level window in turn
until it returns `FALSE`. -/
def EnumWindows {σ : Type} (proc : Nat → σ → Bool × σ) : List Nat → σ → σ
  | [], s => s
  | hwnd :: rest, s => if (proc hwnd s).1 = true then EnumWindows proc rest (proc hwnd s).2
                       else (proc hwnd s).2

/-- A JavaScript number as a C++ `double`: a finite value (every finite double is a
rational) or an infinity.  NaN is left out: line 282 converts the value to `DWORD`, which
C++ leaves undefined for NaN. -/
inductive JsDouble where
  | finite (q : ℚ)
  | posInf
  | negInf
  deriving DecidableEq

/-- An argument handed over by the JavaScript caller. -/
inductive JsValue where
  | undefined
  | null
  | boolean (b : Bool)
  | string (s : List Nat)
  | object
  | number (d : JsDouble)
  deriving DecidableEq

/-- `pidDouble < c`. -/
def JsDouble.lt (d : JsDouble) (c : ℚ) : Bool :=
  match d with
  | JsDouble.finite q => decide (q < c)
  | JsDouble.posInf => false
  | JsDouble.negInf => true

/-- `pidDouble > c`. -/
def JsDouble.gt (d : JsDouble) (c : ℚ) : Bool :=
  match d with
  | JsDouble.finite q => decide (q > c)
  | JsDouble.posInf => true
  | JsDouble.negInf => false

/-- `static_cast<DWORD>(pidDouble)` for a value that passed the range check: the fractional
part is discarded. -/
def static_cast_DWORD (d : JsDouble) : Nat :=
  match d with
  | JsDouble.finite q => (Rat.floor q).toNat % 2 ^ 32
  | JsDouble.posInf => 0
  | JsDouble.negInf => 0

/-- What a call of `MinimizeApplicationSecure` yields: the JavaScript exception left pending
(if any), the returned boolean, and the calls made. -/
structure MinimizeOutcome where
  exception : Option String
  value : Bool
  calls : List OsCall
  deriving DecidableEq, Repr

/-- Lines 284-295: the search for a window of `processId`. -/
def minimizeProcess (os : OS) (processId : Nat) : MinimizeOutcome :=
  let hProcess := os.OpenProcess processId
  if hProcess = 0 then
    { exception := none, value := false, calls := [OsCall.OpenProcess processId hProcess] }
  else
    let s := EnumWindows (SecureEnumWindowsProc os) os.topLevel
      { data := { targetProcessId := processId, found := false, windowCount := 0 },
        calls := [OsCall.OpenProcess processId hProcess, OsCall.CloseHandle hProcess] }
    { exception := none, value := s.data.found, calls := s.calls }

/-- `Napi::Boolean MinimizeApplicationSecure(const Napi::CallbackInfo& info)`. -/
def MinimizeApplicationSecure (os : OS) (info : List JsValue) : MinimizeOutcome :=
  match info with
  | JsValue.number pidDouble :: _ =>
    if pidDouble.lt 1 = true ∨ pidDouble.gt (INT_MAX : ℚ) = true then
      { exception := some "Process ID out of valid range", value := false, calls := [] }
    else minimizeProcess os (static_cast_DWORD pidDouble)
  | _ => { exception := some "Valid process ID required", value := false, calls := [] }

/-! ## `GetWindows` -/

/-- `struct WindowInfo`. -/
structure WindowInfo where
  hwnd : Nat
  processId : Nat
  title : List Nat
  deriving DecidableEq, Repr

/-- `GetWindowTextW(hwnd, buf, nMaxCount)`: the buffer afterwards.  At most
`nMaxCount - 1` code units of the window text are copied, followed by a terminating `0`. -/
def GetWindowTextW (os : OS) (hwnd nMaxCount : Nat) : Nat → Nat :=
  filled nMaxCount ((os.windowText hwnd).take (nMaxCount - 1))

/-- `std::vector::clear()`. -/
def vector_clear {α : Type} (_ : List α) : List α := []

/-- `BOOL CALLBACK EnumWindowsProc(HWND hwnd, LPARAM lParam)` of `windows.cc`, acting on the
global `windows`. -/
def EnumWindowsProc (os : OS) (hwnd : Nat) (windows : List WindowInfo) : Bool × List WindowInfo :=
  if os.IsWindowVisible hwnd = false then (true, windows)
  else
    let title := GetWindowTextW os hwnd 256
    if (readCStr title 256 0).length = 0 then (true, windows)
    else
      let processId := (os.GetWindowThreadProcessId hwnd).2
      let info : WindowInfo := { hwnd := hwnd, processId := processId, title := readCStr title 256 0 }
      (true, windows ++ [info])

/-- The object stored into the array `GetWindows` returns (`hwnd`, `processId`, `title`). -/
structure WindowObj where
  hwnd : Nat
  processId : Nat
  title : List Nat
  deriving DecidableEq, Repr

/-- Lines 55-58 of `windows.cc`: the title `Napi::String::New(env, utf8Title.data())` builds.
`none` stands for a call that builds no title: with a non-positive `utf8Length` the vector
cannot be built or is empty, and `Napi::String::New` raises on its null data pointer; with no
`0` among the `utf8Length` cells the C-string read runs past the end of the vector. -/
def titleToUTF8 (os : OS) (title : List Nat) : Option (List Nat) :=
  let utf8Length := (os.WideCharToMultiByte title (-1) 0).1
  if utf8Length ≤ 0 then none
  else
    let call := os.WideCharToMultiByte title (-1) utf8Length.toNat
    let utf8Title := filled utf8Length.toNat call.2
    if 0 ∈ readN utf8Title utf8Length.toNat then some (readCStr utf8Title utf8Length.toNat 0)
    else none

/-- Lines 48-61 of `windows.cc`: the loop that turns `windows[i], windows[i+1], ...` into
the objects of the returned array; `none` when a title cannot be built, in which case the
call does not return an array. -/
def convertWindows (os : OS) : List WindowInfo → Option (List WindowObj)
  | [] => some []
  | w :: rest =>
    match titleToUTF8 os w.title with
    | none => none
    | some title =>
      match convertWindows os rest with
      | none => none
      | some objs => some ({ hwnd := w.hwnd, processId := w.processId, title := title } :: objs)

/-- `Napi::Array GetWindows(const Napi::CallbackInfo& info)`, started with the global
`windows` holding `windows`: the returned array (`none` when the call does not return one)
and the global afterwards. -/
def GetWindows (os : OS) (windows : List WindowInfo) :
    Option (List WindowObj) × List WindowInfo :=
  let windows := vector_clear windows
  let windows := EnumWindows (EnumWindowsProc os) os.topLevel windows
  (convertWindows os windows, windows)

/-! ## Vocabulary of the statements -/

/-- The path `SafeGetProcessName` resolves for process `pid`, through the handle
`OpenProcess` gives for it. -/
def resolvedPath (os : OS) (pid : Nat) : List Nat :=
  SafeGetProcessName os (os.OpenProcess pid)

/-- An identifier that is non-zero, can be opened, has a resolved path that is neither
empty nor `<unknown>`, and is at most `2^31 - 1`. -/
def listed (os : OS) (pid : Nat) : Bool :=
  decide (pid ≠ 0 ∧ os.OpenProcess pid ≠ 0 ∧ resolvedPath os pid ≠ [] ∧
    resolvedPath os pid ≠ UNKNOWN ∧ pid ≤ INT_MAX)

/-- `comp` is the final component of `path`: the text after the last backslash, or the
whole path when it has none. -/
def IsFinalComponent (path comp : List Nat) : Prop :=
  (BACKSLASH ∉ path ∧ comp = path) ∨ (∃ pre, path = pre ++ BACKSLASH :: comp ∧ BACKSLASH ∉ comp)

/-- The handles open after a sequence of calls, starting from the handles in `held`;
`none` when a handle is closed that is not open. -/
def openHandles : List Nat → List OsCall → Option (List Nat)
  | held, [] => some held
  | held, OsCall.OpenProcess _ h :: cs =>
    if h = 0 then openHandles held cs else openHandles (h :: held) cs
  | held, OsCall.CloseHandle h :: cs =>
    if h ∈ held then openHandles (held.erase h) cs else none
  | held, _ :: cs => openHandles held cs

/-- The calls one iteration makes. -/
def iterationCalls (os : OS) (pid : Nat) : List OsCall :=
  if pid = 0 then []
  else if os.OpenProcess pid = 0 then [OsCall.OpenProcess pid 0]
  else [OsCall.OpenProcess pid (os.OpenProcess pid),
        OsCall.GetModuleFileNameExW (os.OpenProcess pid),
        OsCall.CloseHandle (os.OpenProcess pid)]

/-- The object stored for a listed identifier. -/
def objOf (os : OS) (pid : Nat) : ProcessObj :=
  { id := pid, name := SafeWideToUTF8 os (fileNameOf (resolvedPath os pid)), title := [],
    path := SafeWideToUTF8 os (resolvedPath os pid) }

/-- The call log is a sequence of scopes: a failed open, or an open followed by the use of
the handle and its release. -/
inductive Scoped : List OsCall → Prop where
  | nil : Scoped []
  | failed (pid : Nat) (cs : List OsCall) : Scoped cs → Scoped (OsCall.OpenProcess pid 0 :: cs)
  | held (pid h : Nat) (cs : List OsCall) : h ≠ 0 → Scoped cs →
      Scoped (OsCall.OpenProcess pid h :: OsCall.GetModuleFileNameExW h :: OsCall.CloseHandle h :: cs)

/-- The windows a call log asks to minimize, in order. -/
def minimized (calls : List OsCall) : List Nat :=
  calls.filterMap (fun c => match c with
    | OsCall.ShowWindowMinimize hwnd => some hwnd
    | _ => none)

/-- A valid window handle with a thread, owned by process `pid` and visible: the windows at
which the callback stops the enumeration. -/
def ownedVisible (os : OS) (pid hwnd : Nat) : Bool :=
  os.IsWindow hwnd && decide ((os.GetWindowThreadProcessId hwnd).1 ≠ 0) &&
    decide ((os.GetWindowThreadProcessId hwnd).2 ≠ 0) &&
    decide ((os.GetWindowThreadProcessId hwnd).2 = pid) && os.IsWindowVisible hwnd

/-- The window style has the minimize box. -/
def hasMinimizeBox (os : OS) (hwnd : Nat) : Bool :=
  decide (Nat.land (os.GetWindowStyle hwnd) WS_MINIMIZEBOX ≠ 0)

/-- A window of process `pid` that is visible and has the minimize box. -/
def eligible (os : OS) (pid hwnd : Nat) : Bool :=
  ownedVisible os pid hwnd && hasMinimizeBox os hwnd

/-- The first visible window of `pid` in `l`, provided it has the minimize box. -/
def searchHit (os : OS) (pid : Nat) (l : List Nat) : Option Nat :=
  match l.find? (ownedVisible os pid) with
  | some w => if hasMinimizeBox os w = true then some w else none
  | none => none

/-- A number outside `1 .. 2^31 - 1` (the infinities included). -/
def outOfRange (d : JsDouble) : Prop :=
  match d with
  | JsDouble.finite q => q < 1 ∨ (2 ^ 31 - 1 : ℚ) < q
  | JsDouble.posInf => True
  | JsDouble.negInf => True

/-- A number that is a positive integer in the safe range `1 .. 2^31 - 1`. -/
def isSafePid (d : JsDouble) : Prop :=
  ∃ n : Nat, 1 ≤ n ∧ n ≤ 2 ^ 31 - 1 ∧ d = JsDouble.finite (n : ℚ)

/-- The required output size the primitive reports for `w` (first call, line 29). -/
def sizeNeeded (os : OS) (w : List Nat) : Int :=
  (os.WideCharToMultiByte w w.length 0).1

/-- The converting call for `w` (line 49): the count it reports and the bytes it stores. -/
def conversion (os : OS) (w : List Nat) : Int × List Nat :=
  os.WideCharToMultiByte w w.length (sizeNeeded os w).toNat

/-- The bytes `SafeWideToUTF8` takes out of the buffer after the converting call. -/
def convertedBytes (os : OS) (w : List Nat) : List Nat :=
  readN (filled (sizeNeeded os w).toNat (conversion os w).2) (conversion os w).1.toNat

/-- The input `w` is too long to handle: longer than the largest `int`, or needing more than
65536 bytes. -/
def TooLong (os : OS) (w : List Nat) : Prop :=
  w.length > 2 ^ 31 - 1 ∨ sizeNeeded os w > 65536

/-- The primitive fails on `w`: it reports a non-positive size or a non-positive result. -/
def PrimitiveFailed (os : OS) (w : List Nat) : Prop :=
  sizeNeeded os w ≤ 0 ∨ (conversion os w).1 ≤ 0

/-- The conversion of `w` succeeds: `w` is non-empty and not too long, and the primitive
reports a positive size and a positive result. -/
def Converted (os : OS) (w : List Nat) : Prop :=
  w ≠ [] ∧ w.length ≤ 2 ^ 31 - 1 ∧ 0 < sizeNeeded os w ∧ sizeNeeded os w ≤ 65536 ∧
    0 < (conversion os w).1

/-- The primitive converts the null-terminated string `t` to the bytes `b`: asked for the
size it reports `b.length + 1`, and given that much room it stores `b` followed by the
terminating `0`; `b` is non-empty and holds no `0`. -/
def EncodesAs (os : OS) (t b : List Nat) : Prop :=
  b ≠ [] ∧ 0 ∉ b ∧ (os.WideCharToMultiByte t (-1) 0).1 = (b.length : Int) + 1 ∧
    (os.WideCharToMultiByte t (-1) (b.length + 1)).2 = b ++ [0]

instance (os : OS) (t b : List Nat) : Decidable (EncodesAs os t b) :=
  inferInstanceAs (Decidable (b ≠ [] ∧ 0 ∉ b ∧
    (os.WideCharToMultiByte t (-1) 0).1 = (b.length : Int) + 1 ∧
    (os.WideCharToMultiByte t (-1) (b.length + 1)).2 = b ++ [0]))

/-! ## Sample systems -/

/-- Five table entries: process 4 has no resolvable path, process 8 cannot be opened, a zero
slot, process 12 running `app.exe` from `C:`, and an identifier above `2^31 - 1`. -/
def osSample : OS where
  WideCharToMultiByte := fun src _ cb => if cb = 0 then (src.length, []) else (src.length, src)
  EnumProcesses := fun _ => some ([4, 8, 0, 12, 3000000000], 20)
  OpenProcess := fun pid => if pid = 8 then 0 else pid + 100
  GetModuleFileNameExW := fun h _ =>
    if h = 104 then (0, []) else (10, lit "C:" ++ [BACKSLASH] ++ lit "app.exe")
  topLevel := []
  IsWindow := fun _ => true
  GetWindowThreadProcessId := fun hwnd => (1, hwnd)
  IsWindowVisible := fun _ => true
  GetWindowStyle := fun _ => 0
  windowText := fun _ => []

/-- The record `GetRunningApplicationsSecure` returns for process 12 of `osSample`. -/
def sampleRecord : ProcessObj :=
  { id := 12, name := lit "app.exe", title := [],
    path := lit "C:" ++ [BACKSLASH] ++ lit "app.exe" }

/-- Two windows of process 7, both visible; only the second has the minimize box. -/
def osTwoWindows : OS where
  WideCharToMultiByte := fun src _ cb => if cb = 0 then (src.length, []) else (src.length, src)
  EnumProcesses := fun _ => some ([7], 4)
  OpenProcess := fun pid => pid + 500
  GetModuleFileNameExW := fun _ _ => (3, [67, 92, 97])
  topLevel := [10, 11]
  IsWindow := fun _ => true
  GetWindowThreadProcessId := fun _ => (1, 7)
  IsWindowVisible := fun _ => true
  GetWindowStyle := fun hwnd => if hwnd = 11 then WS_MINIMIZEBOX else 0
  windowText := fun _ => [65]

/-- 101 windows `0 .. 100`; only the last belongs to process 7 (visible, minimize box). -/
def osManyWindows : OS where
  WideCharToMultiByte := fun src _ cb => if cb = 0 then (src.length, []) else (src.length, src)
  EnumProcesses := fun _ => some ([7], 4)
  OpenProcess := fun pid => pid + 500
  GetModuleFileNameExW := fun _ _ => (3, [67, 92, 97])
  topLevel := List.range 101
  IsWindow := fun _ => true
  GetWindowThreadProcessId := fun hwnd => if hwnd = 100 then (1, 7) else (1, 8)
  IsWindowVisible := fun _ => true
  GetWindowStyle := fun _ => WS_MINIMIZEBOX
  windowText := fun _ => [65]

/-- One visible window whose title has 256 code units. -/
def osLongTitle : OS where
  WideCharToMultiByte := fun src cch cb =>
    if cb = 0 then ((if cch < 0 then src ++ [0] else src).length, [])
    else ((if cch < 0 then src ++ [0] else src).length, if cch < 0 then src ++ [0] else src)
  EnumProcesses := fun _ => some ([7], 4)
  OpenProcess := fun pid => pid + 500
  GetModuleFileNameExW := fun _ _ => (3, [67, 92, 97])
  topLevel := [1]
  IsWindow := fun _ => true
  GetWindowThreadProcessId := fun _ => (1, 7)
  IsWindowVisible := fun _ => true
  GetWindowStyle := fun _ => WS_MINIMIZEBOX
  windowText := fun _ => List.replicate 256 65

/-- Four windows: `Calculator` (visible), `Hidden` (not visible), one visible without a
title, and `Notes` (visible).  The converter copies ASCII and, for a null-terminated input
(`cch < 0`), appends the terminating `0`. -/
def osTitled : OS where
  WideCharToMultiByte := fun src cch cb =>
    if cb = 0 then ((if cch < 0 then src ++ [0] else src).length, [])
    else ((if cch < 0 then src ++ [0] else src).length, if cch < 0 then src ++ [0] else src)
  EnumProcesses := fun _ => some ([7], 4)
  OpenProcess := fun pid => pid + 500
  GetModuleFileNameExW := fun _ _ => (3, [67, 92, 97])
  topLevel := [20, 21, 22, 23]
  IsWindow := fun _ => true
  GetWindowThreadProcessId := fun hwnd => (1, hwnd + 1000)
  IsWindowVisible := fun hwnd => decide (hwnd ≠ 21)
  GetWindowStyle := fun _ => WS_MINIMIZEBOX
  windowText := fun hwnd =>
    if hwnd = 20 then lit "Calculator" else if hwnd = 21 then lit "Hidden"
    else if hwnd = 23 then lit "Notes" else []

/-! ## Lemmas on buffers and strings -/

theorem readN_succ (buf : Nat → Nat) (n : Nat) : readN buf (n + 1) = readN buf n ++ [buf n] := by
  simp [readN, List.range_succ]

theorem readN_length (buf : Nat → Nat) (n : Nat) : (readN buf n).length = n := by
  simp [readN]

theorem readN_filled (size : Nat) (t : List Nat) (c : Nat) (hc : c ≤ size) :
    readN (filled size t) c = t.take c ++ List.replicate (c - t.length) 0 := by
  induction c with
  | zero => simp [readN]
  | succ c ih =>
    rw [readN_succ, ih (by omega)]
    have hlt : c < size := by omega
    by_cases hcl : c < t.length
    · have h1 : c - t.length = 0 := by omega
      have h2 : c + 1 - t.length = 0 := by omega
      simp only [h1, h2, List.replicate_zero, List.append_nil, filled, hlt, if_true]
      rw [List.take_succ]
      simp [List.getD, List.getElem?_eq_getElem hcl]
    · have hge : t.length ≤ c := by omega
      have h2 : c + 1 - t.length = (c - t.length) + 1 := by omega
      rw [h2, List.replicate_succ', List.take_of_length_le hge, List.take_of_length_le (by omega)]
      simp [filled, hlt, List.getD, List.getElem?_eq_none hge]

theorem find_last_of_none (s : List Nat) (c : Nat) : find_last_of s c = none ↔ c ∉ s := by
  induction s with
  | nil => simp [find_last_of]
  | cons x xs ih =>
    unfold find_last_of
    cases h : find_last_of xs c with
    | some p =>
      have : ¬ (c ∉ xs) := fun hc => by rw [ih.mpr hc] at h; cases h
      simp only [List.mem_cons, not_or]
      constructor
      · intro h0; cases h0
      · intro h0; exact absurd h0.2 this
    | none =>
      have hc : c ∉ xs := ih.mp h
      by_cases hx : x = c
      · simp [hx]
      · simp [hx, hc, Ne.symm hx]

theorem find_last_of_some (s : List Nat) (c : Nat) (p : Nat) (h : find_last_of s c = some p) :
    s = s.take p ++ c :: s.drop (p + 1) ∧ c ∉ s.drop (p + 1) := by
  induction s generalizing p with
  | nil => simp [find_last_of] at h
  | cons x xs ih =>
    unfold find_last_of at h
    cases hq : find_last_of xs c with
    | some q =>
      rw [hq] at h
      simp only [Option.some.injEq] at h
      subst h
      obtain ⟨h1, h2⟩ := ih q hq
      refine ⟨?_, by simpa using h2⟩
      simp only [List.take_succ_cons, List.drop_succ_cons, List.cons_append]
      rw [← h1]
    | none =>
      rw [hq] at h
      have hc : c ∉ xs := (find_last_of_none xs c).mp hq
      by_cases hx : x = c
      · simp only [hx, if_true, Option.some.injEq] at h
        subst h
        subst hx
        simpa using hc
      · simp [hx] at h

theorem fileNameOf_spec (path : List Nat) :
    ∃ comp, IsFinalComponent path comp ∧ fileNameOf path = comp.take 255 := by
  unfold fileNameOf
  cases h : find_last_of path BACKSLASH with
  | none =>
    refine ⟨path, Or.inl ⟨(find_last_of_none _ _).mp h, rfl⟩, ?_⟩
    by_cases hl : path.length > 255
    · simp [hl]
    · simp only [hl, if_false]
      rw [List.take_of_length_le (by omega)]
  | some p =>
    obtain ⟨h1, h2⟩ := find_last_of_some _ _ _ h
    refine ⟨path.drop (p + 1), Or.inr ⟨path.take p, h1, h2⟩, ?_⟩
    by_cases hl : (path.drop (p + 1)).length > 255
    · simp only [hl, if_true]
    · simp only [hl, if_false]
      rw [List.take_of_length_le (by omega)]

/-! ## Lemmas on the process loop -/

theorem guardedScope_fst (os : OS) (pid : Nat) :
    (guardedScope os pid (os.OpenProcess pid)).1 =
      if resolvedPath os pid ≠ [] ∧ resolvedPath os pid ≠ UNKNOWN ∧ pid ≤ INT_MAX then
        some { id := pid, name := SafeWideToUTF8 os (fileNameOf (resolvedPath os pid)), title := [],
               path := SafeWideToUTF8 os (resolvedPath os pid) }
      else none := by
  unfold guardedScope resolvedPath
  simp only []
  by_cases h1 : SafeGetProcessName os (os.OpenProcess pid) = UNKNOWN
  · simp [h1]
  · by_cases h2 : SafeGetProcessName os (os.OpenProcess pid) = []
    · simp [h2]
    · by_cases h3 : pid > INT_MAX
      · have : ¬ pid ≤ INT_MAX := by omega
        simp [h1, h2, h3, this]
      · have : pid ≤ INT_MAX := by omega
        simp [h1, h2, h3, this]

theorem guardedScope_snd (os : OS) (pid h : Nat) :
    (guardedScope os pid h).2 = [OsCall.GetModuleFileNameExW h] := by
  unfold guardedScope
  simp only []
  split
  · rfl
  · split <;> rfl

theorem iteration_eq (os : OS) (pid : Nat) (st : EnumState) :
    iteration os pid st =
      { result := st.result ++ (if listed os pid = true then [objOf os pid] else []),
        resultIndex := st.resultIndex + (if listed os pid = true then 1 else 0),
        calls := st.calls ++ iterationCalls os pid } := by
  unfold iteration iterationCalls
  by_cases h0 : pid = 0
  · simp [h0, listed]
  · by_cases h1 : os.OpenProcess pid = 0
    · simp [h0, h1, listed]
    · simp only [h0, h1, if_false, guardedScope_snd, guardedScope_fst, ProcessHandleGuard_dtor,
        ne_eq, not_false_eq_true, if_true]
      by_cases h2 : resolvedPath os pid ≠ [] ∧ resolvedPath os pid ≠ UNKNOWN ∧ pid ≤ INT_MAX
      · have hl : listed os pid = true := by
          simp only [listed, decide_eq_true_eq]
          exact ⟨h0, h1, h2⟩
        simp only [ne_eq] at h2
        simp [h2, hl, objOf]
      · have hl : ¬ listed os pid = true := by
          simp only [listed, decide_eq_true_eq]
          exact fun h => h2 h.2.2
        simp only [ne_eq] at h2
        simp [h2, hl]

theorem forLoop_result (os : OS) (l : List Nat) (st : EnumState)
    (hinv : st.resultIndex = st.result.length) :
    (forLoop os l st).result =
      st.result ++ ((l.filter (listed os)).take (MAX_RESULTS - st.result.length)).map (objOf os) := by
  induction l generalizing st with
  | nil => simp [forLoop]
  | cons pid rest ih =>
    unfold forLoop
    by_cases hlt : st.resultIndex < MAX_RESULTS
    · simp only [hlt, if_true]
      rw [ih (iteration os pid st) (by rw [iteration_eq]; split <;> simp [hinv])]
      rw [iteration_eq]
      by_cases hl : listed os pid = true
      · have : MAX_RESULTS - st.result.length = (MAX_RESULTS - (st.result.length + 1)) + 1 := by omega
        simp only [hl, if_true, List.filter_cons_of_pos, List.length_append, List.length_singleton]
        rw [this, List.take_succ_cons]
        simp
      · simp [hl]
    · have : MAX_RESULTS - st.result.length = 0 := by omega
      simp [hlt, this]

theorem Scoped.append {a b : List OsCall} (ha : Scoped a) (hb : Scoped b) : Scoped (a ++ b) := by
  induction ha with
  | nil => simpa using hb
  | failed pid cs _ ih => exact Scoped.failed pid _ ih
  | held pid h cs hh _ ih => exact Scoped.held pid h _ hh ih

theorem iterationCalls_scoped (os : OS) (pid : Nat) : Scoped (iterationCalls os pid) := by
  unfold iterationCalls
  split
  · exact Scoped.nil
  · split
    · exact Scoped.failed pid [] Scoped.nil
    · rename_i h
      exact Scoped.held pid _ [] h Scoped.nil

theorem forLoop_scoped (os : OS) (l : List Nat) (st : EnumState) (h : Scoped st.calls) :
    Scoped (forLoop os l st).calls := by
  induction l generalizing st with
  | nil => simpa [forLoop] using h
  | cons pid rest ih =>
    unfold forLoop
    split
    · apply ih
      rw [iteration_eq]
      exact Scoped.append h (iterationCalls_scoped os pid)
    · exact h

theorem Scoped.closed {cs : List OsCall} (h : Scoped cs) : openHandles [] cs = some [] := by
  induction h with
  | nil => rfl
  | failed pid cs _ ih => simpa [openHandles] using ih
  | held pid h cs hh _ ih => simpa [openHandles, hh] using ih

theorem Scoped.prefix_le_one {cs : List OsCall} (h : Scoped cs) (n : Nat) :
    ∃ held, openHandles [] (cs.take n) = some held ∧ held.length ≤ 1 := by
  induction h generalizing n with
  | nil => exact ⟨[], by simp [openHandles]⟩
  | failed pid cs _ ih =>
    cases n with
    | zero => exact ⟨[], by simp [openHandles]⟩
    | succ n => simpa [openHandles] using ih n
  | held pid h cs hh _ ih =>
    match n with
    | 0 => exact ⟨[], by simp [openHandles]⟩
    | 1 => exact ⟨[h], by simp [openHandles, hh]⟩
    | 2 => exact ⟨[h], by simp [openHandles, hh]⟩
    | n + 3 => simpa [openHandles, hh] using ih n

theorem Scoped.before_open {cs : List OsCall} (h : Scoped cs) (pre post : List OsCall)
    (pid hd : Nat) (hsplit : cs = pre ++ OsCall.OpenProcess pid hd :: post) :
    openHandles [] pre = some [] := by
  induction h generalizing pre with
  | nil => simp at hsplit
  | failed pid0 cs _ ih =>
    cases pre with
    | nil => rfl
    | cons c pre =>
      simp only [List.cons_append, List.cons.injEq] at hsplit
      obtain ⟨hc, hrest⟩ := hsplit
      subst hc
      simpa [openHandles] using ih pre hrest
  | held pid0 h cs hh _ ih =>
    match pre with
    | [] => rfl
    | [_] => simp at hsplit
    | [_, _] => simp at hsplit
    | c1 :: c2 :: c3 :: pre =>
      simp only [List.cons_append, List.cons.injEq] at hsplit
      obtain ⟨hc1, hc2, hc3, hrest⟩ := hsplit
      subst hc1 hc2 hc3
      simpa [openHandles, hh] using ih pre hrest

theorem listed_zero (os : OS) : listed os 0 = false := by
  simp [listed]

theorem listed_range (os : OS) (pid : Nat) (h : listed os pid = true) :
    1 ≤ pid ∧ pid ≤ 2 ^ 31 - 1 := by
  simp only [listed, decide_eq_true_eq, INT_MAX] at h
  omega

theorem cProcessesOf_eq (cbNeeded : Nat) : cProcessesOf cbNeeded = min (cbNeeded / 4) 4096 := by
  unfold cProcessesOf MAX_PROCESSES SIZEOF_DWORD
  simp only []
  split <;> split <;> omega

theorem map_id_objOf (os : OS) (l : List Nat) :
    (l.map (objOf os)).map (fun r => r.id) = l := by
  induction l with
  | nil => rfl
  | cons x xs ih =>
    rw [List.map_cons, List.map_cons, ih]
    rfl

theorem filter_listed_padded (os : OS) (t : List Nat) (k : Nat) :
    (t ++ List.replicate k 0).filter (listed os) = t.filter (listed os) := by
  rw [List.filter_append]
  have : (List.replicate k 0).filter (listed os) = [] := by
    rw [List.filter_eq_nil_iff]
    intro a ha
    rw [List.eq_of_mem_replicate ha, listed_zero]
    simp
  rw [this, List.append_nil]

/-- The array returned once the table has been obtained. -/
theorem result_eq (os : OS) (table : List Nat) (cbNeeded : Nat)
    (h : os.EnumProcesses (MAX_PROCESSES * SIZEOF_DWORD) = some (table, cbNeeded)) :
    (GetRunningApplicationsSecure os).result =
      (((table.take (min (cbNeeded / 4) 4096)).filter (listed os)).take 1000).map (objOf os) := by
  unfold GetRunningApplicationsSecure
  rw [h]
  simp only []
  rw [forLoop_result os _ _ rfl, cProcessesOf_eq]
  rw [readN_filled _ _ _ (by unfold MAX_PROCESSES; omega), filter_listed_padded]
  simp [MAX_RESULTS]

/-- C1: for every OS state, `GetRunningApplicationsSecure` returns at most 1000 records. -/
theorem C1_at_most_1000_records (os : OS) :
    (GetRunningApplicationsSecure os).result.length ≤ 1000 := by
  cases h : os.EnumProcesses (MAX_PROCESSES * SIZEOF_DWORD) with
  | none => simp [GetRunningApplicationsSecure, h]
  | some r =>
    obtain ⟨table, cbNeeded⟩ := r
    rw [result_eq os table cbNeeded h]
    simp only [List.length_map, List.length_take]
    omega

/-- C2: when the process table is obtained, the returned ids are, in table order, the first
1000 of the identifiers among the first `min (cbNeeded / 4) 4096` table slots that are
non-zero, can be opened, have a resolved path that is neither empty nor `<unknown>`, and are
at most `2^31 - 1`; they form a subsequence of the table and each lies in `1 .. 2^31 - 1`. -/
theorem C2_ids_are_first_1000_listed (os : OS) (table : List Nat) (cbNeeded : Nat)
    (h : os.EnumProcesses (MAX_PROCESSES * SIZEOF_DWORD) = some (table, cbNeeded)) :
    (GetRunningApplicationsSecure os).result.map (fun r => r.id) =
        ((table.take (min (cbNeeded / 4) 4096)).filter
          (fun pid => decide (pid ≠ 0 ∧ os.OpenProcess pid ≠ 0 ∧ resolvedPath os pid ≠ [] ∧
            resolvedPath os pid ≠ UNKNOWN ∧ pid ≤ 2 ^ 31 - 1))).take 1000 ∧
      ((GetRunningApplicationsSecure os).result.map (fun r => r.id)).Sublist table ∧
      ∀ id ∈ (GetRunningApplicationsSecure os).result.map (fun r => r.id),
        1 ≤ id ∧ id ≤ 2 ^ 31 - 1 := by
  have hl : (fun pid => decide (pid ≠ 0 ∧ os.OpenProcess pid ≠ 0 ∧ resolvedPath os pid ≠ [] ∧
      resolvedPath os pid ≠ UNKNOWN ∧ pid ≤ 2 ^ 31 - 1)) = listed os := by
    funext pid
    simp [listed, INT_MAX]
  rw [hl, result_eq os table cbNeeded h, map_id_objOf]
  refine ⟨rfl, ?_, ?_⟩
  · exact ((List.take_sublist _ _).trans (List.filter_sublist _)).trans (List.take_sublist _ _)
  · intro id hid
    have h1 : id ∈ (table.take (min (cbNeeded / 4) 4096)).filter (listed os) :=
      List.mem_of_mem_take hid
    exact listed_range os id (List.mem_filter.mp h1).2

/-- C2 at `osSample`: of the five table entries only process 12 is returned. -/
theorem C2_witness :
    osSample.EnumProcesses (MAX_PROCESSES * SIZEOF_DWORD)
        = some ([4, 8, 0, 12, 3000000000], 20) ∧
      ((GetRunningApplicationsSecure osSample).result.map (fun r => r.id) =
          (([4, 8, 0, 12, 3000000000].take (min (20 / 4) 4096)).filter
            (fun pid => decide (pid ≠ 0 ∧ osSample.OpenProcess pid ≠ 0 ∧
              resolvedPath osSample pid ≠ [] ∧ resolvedPath osSample pid ≠ UNKNOWN ∧
              pid ≤ 2 ^ 31 - 1))).take 1000 ∧
        ((GetRunningApplicationsSecure osSample).result.map (fun r => r.id)).Sublist
          [4, 8, 0, 12, 3000000000] ∧
        ∀ id ∈ (GetRunningApplicationsSecure osSample).result.map (fun r => r.id),
          1 ≤ id ∧ id ≤ 2 ^ 31 - 1) :=
  ⟨rfl, C2_ids_are_first_1000_listed osSample [4, 8, 0, 12, 3000000000] 20 rfl⟩

/-- C8: for every returned record, the name before byte conversion is the final component
of the record's resolved path (the text after the last backslash, or the whole path when it
has none) cut to its first 255 code units; it has at most 255 units, contains no backslash
and is a contiguous part of the path. -/
theorem C8_name_is_final_component (os : OS) (r : ProcessObj)
    (hr : r ∈ (GetRunningApplicationsSecure os).result) :
    ∃ fileName : List Nat,
      r.path = SafeWideToUTF8 os (resolvedPath os r.id) ∧
      r.name = SafeWideToUTF8 os fileName ∧
      (∃ comp, IsFinalComponent (resolvedPath os r.id) comp ∧ fileName = comp.take 255) ∧
      fileName.length ≤ 255 ∧ BACKSLASH ∉ fileName ∧ fileName <:+: resolvedPath os r.id := by
  cases h : os.EnumProcesses (MAX_PROCESSES * SIZEOF_DWORD) with
  | none => simp [GetRunningApplicationsSecure, h] at hr
  | some tc =>
    obtain ⟨table, cbNeeded⟩ := tc
    rw [result_eq os table cbNeeded h, List.mem_map] at hr
    obtain ⟨pid, -, rfl⟩ := hr
    obtain ⟨comp, hcomp, hname⟩ := fileNameOf_spec (resolvedPath os pid)
    refine ⟨fileNameOf (resolvedPath os pid), rfl, rfl, ⟨comp, hcomp, hname⟩, ?_, ?_, ?_⟩
    · rw [hname, List.length_take]; omega
    · rw [hname]
      intro hmem
      have hc : BACKSLASH ∈ comp := List.mem_of_mem_take hmem
      rcases hcomp with ⟨hno, rfl⟩ | ⟨pre, hpath, hno⟩
      · exact hno hc
      · exact hno hc
    · rw [hname]
      have h1 : comp.take 255 <:+: comp := (List.take_prefix _ _).isInfix
      rcases hcomp with ⟨-, rfl⟩ | ⟨pre, hpath, -⟩
      · exact h1
      · show comp.take 255 <:+: resolvedPath os (objOf os pid).id
        have : (objOf os pid).id = pid := rfl
        rw [this, hpath]
        exact h1.trans ((List.suffix_cons _ _).trans (List.suffix_append _ _)).isInfix

/-- C8 at `osSample`: the record of process 12 is named after the last path component. -/
theorem C8_witness :
    sampleRecord ∈ (GetRunningApplicationsSecure osSample).result ∧
      ∃ fileName : List Nat,
        sampleRecord.path = SafeWideToUTF8 osSample (resolvedPath osSample sampleRecord.id) ∧
        sampleRecord.name = SafeWideToUTF8 osSample fileName ∧
        (∃ comp, IsFinalComponent (resolvedPath osSample sampleRecord.id) comp ∧
          fileName = comp.take 255) ∧
        fileName.length ≤ 255 ∧ BACKSLASH ∉ fileName ∧
        fileName <:+: resolvedPath osSample sampleRecord.id :=
  ⟨by decide, C8_name_is_final_component osSample sampleRecord (by decide)⟩

/-- C9: every process handle opened during a `GetRunningApplicationsSecure` call is closed
exactly once before the next identifier is processed: at every point of the call at most
one handle is open and no handle is closed that is not open, no handle is open when the
next `OpenProcess` is issued, and none is open when the call returns. -/
theorem C9_handles_closed_each_iteration (os : OS) :
    (∀ n, ∃ held, openHandles [] ((GetRunningApplicationsSecure os).calls.take n) = some held ∧
        held.length ≤ 1) ∧
      (∀ pre post pid h, (GetRunningApplicationsSecure os).calls
          = pre ++ OsCall.OpenProcess pid h :: post → openHandles [] pre = some []) ∧
      openHandles [] (GetRunningApplicationsSecure os).calls = some [] := by
  have hs : Scoped (GetRunningApplicationsSecure os).calls := by
    unfold GetRunningApplicationsSecure
    cases os.EnumProcesses (MAX_PROCESSES * SIZEOF_DWORD) with
    | none => exact Scoped.nil
    | some tc => exact forLoop_scoped os _ _ Scoped.nil
  exact ⟨fun n => hs.prefix_le_one n, fun pre post pid h hsplit => hs.before_open pre post pid h hsplit,
    hs.closed⟩

/-! ## Lemmas on the window search -/

theorem minimized_append (a b : List OsCall) : minimized (a ++ b) = minimized a ++ minimized b := by
  simp [minimized, List.filterMap_append]

theorem proc_stop (os : OS) (hwnd : Nat) (s : SearchState)
    (hk : s.data.windowCount ≥ MAX_WINDOWS) :
    (SecureEnumWindowsProc os hwnd s).1 = false ∧
      (SecureEnumWindowsProc os hwnd s).2.data.found = s.data.found ∧
      (SecureEnumWindowsProc os hwnd s).2.calls = s.calls := by
  unfold SecureEnumWindowsProc
  simp [hk]

theorem proc_step (os : OS) (hwnd : Nat) (s : SearchState)
    (hk : s.data.windowCount < MAX_WINDOWS) :
    (SecureEnumWindowsProc os hwnd s).1 = !ownedVisible os s.data.targetProcessId hwnd ∧
      (SecureEnumWindowsProc os hwnd s).2.data.targetProcessId = s.data.targetProcessId ∧
      (SecureEnumWindowsProc os hwnd s).2.data.windowCount = s.data.windowCount + 1 ∧
      (SecureEnumWindowsProc os hwnd s).2.data.found
        = (s.data.found || eligible os s.data.targetProcessId hwnd) ∧
      minimized (SecureEnumWindowsProc os hwnd s).2.calls
        = minimized s.calls ++ (if eligible os s.data.targetProcessId hwnd = true then [hwnd] else []) := by
  have hk1 : ¬ s.data.windowCount ≥ MAX_WINDOWS := by omega
  have hk2 : (s.data.windowCount + 1) % 2 ^ 32 = s.data.windowCount + 1 := by
    unfold MAX_WINDOWS at hk
    omega
  unfold SecureEnumWindowsProc eligible ownedVisible hasMinimizeBox
  simp only [hk1, if_false, hk2]
  by_cases h1 : os.IsWindow hwnd = false
  · simp [h1, minimized_append, minimized]
  · simp only [Bool.not_eq_false] at h1
    by_cases h2 : (os.GetWindowThreadProcessId hwnd).1 = 0
    · simp [h1, h2, minimized_append, minimized]
    · by_cases h3 : (os.GetWindowThreadProcessId hwnd).2 = 0
      · simp [h1, h2, h3, minimized_append, minimized]
      · by_cases h4 : (os.GetWindowThreadProcessId hwnd).2 = s.data.targetProcessId
        · by_cases h5 : os.IsWindowVisible hwnd = true
          · by_cases h6 : Nat.land (os.GetWindowStyle hwnd) WS_MINIMIZEBOX = 0
            · have h3' : ¬ s.data.targetProcessId = 0 := h4 ▸ h3
              simp [h1, h2, h3, h3', h4, h5, h6, minimized_append, minimized]
            · have h3' : ¬ s.data.targetProcessId = 0 := h4 ▸ h3
              simp [h1, h2, h3, h3', h4, h5, h6, minimized_append, minimized]
          · have h3' : ¬ s.data.targetProcessId = 0 := h4 ▸ h3
            simp [h1, h2, h3, h3', h4, h5, minimized_append, minimized]
        · simp [h1, h2, h3, h4, minimized_append, minimized]

theorem search_lemma (os : OS) (l : List Nat) (s : SearchState) :
    (EnumWindows (SecureEnumWindowsProc os) l s).data.found
        = (s.data.found ||
            (searchHit os s.data.targetProcessId (l.take (MAX_WINDOWS - s.data.windowCount))).isSome) ∧
      minimized (EnumWindows (SecureEnumWindowsProc os) l s).calls
        = minimized s.calls ++
            (searchHit os s.data.targetProcessId (l.take (MAX_WINDOWS - s.data.windowCount))).toList := by
  induction l generalizing s with
  | nil => simp [EnumWindows, searchHit]
  | cons hwnd rest ih =>
    unfold EnumWindows
    by_cases hk : s.data.windowCount < MAX_WINDOWS
    · obtain ⟨p1, p2, p3, p4, p5⟩ := proc_step os hwnd s hk
      have ht : MAX_WINDOWS - s.data.windowCount = (MAX_WINDOWS - (s.data.windowCount + 1)) + 1 := by
        omega
      rw [ht, List.take_succ_cons]
      by_cases hov : ownedVisible os s.data.targetProcessId hwnd = true
      · have hstop : ¬ (SecureEnumWindowsProc os hwnd s).1 = true := by simp [p1, hov]
        rw [if_neg hstop, p4, p5]
        by_cases hm : hasMinimizeBox os hwnd = true
        · simp [searchHit, List.find?_cons, hov, hm, eligible]
        · simp [searchHit, List.find?_cons, hov, hm, eligible]
      · have hgo : (SecureEnumWindowsProc os hwnd s).1 = true := by simp [p1, hov]
        rw [if_pos hgo]
        obtain ⟨i1, i2⟩ := ih (SecureEnumWindowsProc os hwnd s).2
        rw [i1, i2, p2, p3, p4, p5]
        simp [searchHit, List.find?_cons, hov, eligible]
    · obtain ⟨p1, p2, p3⟩ := proc_stop os hwnd s (by omega)
      have ht : MAX_WINDOWS - s.data.windowCount = 0 := by omega
      simp [p1, p2, p3, ht, searchHit]

theorem searchHit_some (os : OS) (pid : Nat) (l : List Nat) (w : Nat)
    (h : searchHit os pid l = some w) :
    w ∈ l ∧ ownedVisible os pid w = true ∧ hasMinimizeBox os w = true := by
  unfold searchHit at h
  cases hf : l.find? (ownedVisible os pid) with
  | none => simp [hf] at h
  | some x =>
    rw [hf] at h
    by_cases hm : hasMinimizeBox os x = true
    · simp only [hm, if_true, Option.some.injEq] at h
      subst h
      exact ⟨List.mem_of_find?_eq_some hf, List.find?_some hf, hm⟩
    · simp [hm] at h

theorem searchHit_first (os : OS) (pid : Nat) (pre post : List Nat) (w : Nat)
    (hpre : ∀ x ∈ pre, ownedVisible os pid x = false) (hw : ownedVisible os pid w = true) :
    searchHit os pid (pre ++ w :: post) = if hasMinimizeBox os w = true then some w else none := by
  unfold searchHit
  have : (pre ++ w :: post).find? (ownedVisible os pid) = some w := by
    rw [List.find?_eq_some]
    exact ⟨hw, pre, post, rfl, fun a ha => by simp [hpre a ha]⟩
  rw [this]

theorem minimizeProcess_closed (os : OS) (pid : Nat) (h : os.OpenProcess pid = 0) :
    minimizeProcess os pid
      = { exception := none, value := false, calls := [OsCall.OpenProcess pid 0] } := by
  simp [minimizeProcess, h]

theorem minimizeProcess_open (os : OS) (pid : Nat) (h : os.OpenProcess pid ≠ 0) :
    (minimizeProcess os pid).value = (searchHit os pid (os.topLevel.take MAX_WINDOWS)).isSome ∧
      minimized (minimizeProcess os pid).calls
        = (searchHit os pid (os.topLevel.take MAX_WINDOWS)).toList := by
  unfold minimizeProcess
  simp only [h, if_false]
  have := search_lemma os os.topLevel
    { data := { targetProcessId := pid, found := false, windowCount := 0 },
      calls := [OsCall.OpenProcess pid (os.OpenProcess pid), OsCall.CloseHandle (os.OpenProcess pid)] }
  simpa [minimized] using this

/-- The outcome of the search in every case. -/
theorem minimizeProcess_spec (os : OS) (pid : Nat) :
    (minimizeProcess os pid).value = true ↔ minimized (minimizeProcess os pid).calls ≠ [] := by
  by_cases h : os.OpenProcess pid = 0
  · rw [minimizeProcess_closed os pid h]
    simp [minimized]
  · obtain ⟨h1, h2⟩ := minimizeProcess_open os pid h
    rw [h1, h2]
    cases searchHit os pid (os.topLevel.take MAX_WINDOWS) <;> simp

theorem minimizeProcess_minimized (os : OS) (pid : Nat) :
    (minimized (minimizeProcess os pid).calls).length ≤ 1 ∧
      ∀ hwnd ∈ minimized (minimizeProcess os pid).calls,
        os.OpenProcess pid ≠ 0 ∧ hwnd ∈ os.topLevel.take MAX_WINDOWS ∧
          ownedVisible os pid hwnd = true ∧ hasMinimizeBox os hwnd = true := by
  by_cases h : os.OpenProcess pid = 0
  · rw [minimizeProcess_closed os pid h]
    simp [minimized]
  · obtain ⟨-, h2⟩ := minimizeProcess_open os pid h
    rw [h2]
    cases hs : searchHit os pid (os.topLevel.take MAX_WINDOWS) with
    | none => simp
    | some w =>
      refine ⟨by simp, ?_⟩
      intro hwnd hmem
      simp only [Option.toList, List.mem_singleton] at hmem
      subst hmem
      exact ⟨h, searchHit_some os pid _ _ hs⟩

theorem static_cast_DWORD_natCast (pid : Nat) (h : pid ≤ INT_MAX) :
    static_cast_DWORD (JsDouble.finite (pid : ℚ)) = pid := by
  have hf : Rat.floor (pid : ℚ) = (pid : Int) := rfl
  unfold static_cast_DWORD
  simp only [hf, Int.toNat_ofNat]
  unfold INT_MAX at h
  omega

theorem MinimizeApplicationSecure_valid (os : OS) (pid : Nat) (h1 : 1 ≤ pid) (h2 : pid ≤ INT_MAX)
    (rest : List JsValue) :
    MinimizeApplicationSecure os (JsValue.number (JsDouble.finite (pid : ℚ)) :: rest)
      = minimizeProcess os pid := by
  have a : ¬ ((pid : ℚ) < 1) := by
    rw [not_lt]
    exact_mod_cast h1
  have b : ¬ ((pid : ℚ) > ((INT_MAX : ℕ) : ℚ)) := by
    rw [gt_iff_lt, not_lt]
    exact_mod_cast h2
  unfold MinimizeApplicationSecure
  simp only [JsDouble.lt, JsDouble.gt, decide_eq_true_eq, a, b, or_self, if_false]
  rw [static_cast_DWORD_natCast pid h2]

theorem outOfRange_iff (d : JsDouble) :
    (d.lt 1 = true ∨ d.gt (INT_MAX : ℚ) = true) ↔ outOfRange d := by
  cases d with
  | finite q =>
    simp only [JsDouble.lt, JsDouble.gt, decide_eq_true_eq, outOfRange, gt_iff_lt]
    have : ((INT_MAX : ℕ) : ℚ) = 2 ^ 31 - 1 := by
      unfold INT_MAX
      norm_num
    rw [this]
  | posInf => simp [JsDouble.lt, JsDouble.gt, outOfRange]
  | negInf => simp [JsDouble.lt, JsDouble.gt, outOfRange]

theorem MinimizeApplicationSecure_cases (os : OS) (info : List JsValue) :
    ((∀ d rest, info ≠ JsValue.number d :: rest) ∧ MinimizeApplicationSecure os info
        = { exception := some "Valid process ID required", value := false, calls := [] }) ∨
      (∃ d rest, info = JsValue.number d :: rest ∧ outOfRange d ∧ MinimizeApplicationSecure os info
        = { exception := some "Process ID out of valid range", value := false, calls := [] }) ∨
      (∃ d rest, info = JsValue.number d :: rest ∧ ¬ outOfRange d ∧
        MinimizeApplicationSecure os info = minimizeProcess os (static_cast_DWORD d)) := by
  unfold MinimizeApplicationSecure
  split
  · rename_i pidDouble rest
    by_cases h : pidDouble.lt 1 = true ∨ pidDouble.gt (INT_MAX : ℚ) = true
    · exact Or.inr (Or.inl ⟨pidDouble, rest, rfl, (outOfRange_iff _).mp h, by rw [if_pos h]⟩)
    · exact Or.inr (Or.inr ⟨pidDouble, rest, rfl, fun hc => h ((outOfRange_iff _).mpr hc),
        by rw [if_neg h]⟩)
  · rename_i hne
    exact Or.inl ⟨fun d rest heq => hne d rest heq, rfl⟩

theorem mem_take_index (l : List Nat) (n w : Nat) (h : w ∈ l.take n) :
    ∃ i, i < n ∧ l[i]? = some w := by
  obtain ⟨i, hi⟩ := List.mem_iff_getElem?.mp h
  rw [List.getElem?_take] at hi
  by_cases hlt : i < n
  · exact ⟨i, hlt, by simpa [hlt] using hi⟩
  · simp [hlt] at hi

/-- C3, as stated, fails: process 7 is accessible and owns exactly one eligible window, yet
the call returns false and minimizes nothing, once because an earlier visible window of the
process without the minimize box stops the search, once because the eligible window is the
101st window enumerated. -/
theorem C3_counterexample :
    (osTwoWindows.OpenProcess 7 ≠ 0 ∧
      osTwoWindows.topLevel.filter (eligible osTwoWindows 7) = [11] ∧
      (MinimizeApplicationSecure osTwoWindows [JsValue.number (JsDouble.finite 7)]).value = false ∧
      minimized (MinimizeApplicationSecure osTwoWindows
        [JsValue.number (JsDouble.finite 7)]).calls = []) ∧
    (osManyWindows.OpenProcess 7 ≠ 0 ∧
      osManyWindows.topLevel.filter (eligible osManyWindows 7) = [100] ∧
      (MinimizeApplicationSecure osManyWindows [JsValue.number (JsDouble.finite 7)]).value = false ∧
      minimized (MinimizeApplicationSecure osManyWindows
        [JsValue.number (JsDouble.finite 7)]).calls = []) := by
  decide

/-- C3, amended: for a valid process id whose process is accessible, the search stops at the
first visible window of the process, provided it is among the first 100 windows enumerated.
If that window has the minimize box the call returns true and the minimize request goes to
that window and to no other; if it lacks the minimize box the call returns false and no
minimize request is issued. -/
theorem C3_first_visible_window_decides (os : OS) (pid : Nat) (h1 : 1 ≤ pid) (h2 : pid ≤ 2 ^ 31 - 1)
    (hopen : os.OpenProcess pid ≠ 0) (pre post : List Nat) (w : Nat)
    (hsplit : os.topLevel = pre ++ w :: post) (hpre : pre.length < 100)
    (hfirst : ∀ x ∈ pre, ownedVisible os pid x = false) (hw : ownedVisible os pid w = true) :
    (hasMinimizeBox os w = true →
      (MinimizeApplicationSecure os [JsValue.number (JsDouble.finite (pid : ℚ))]).value = true ∧
      minimized (MinimizeApplicationSecure os
        [JsValue.number (JsDouble.finite (pid : ℚ))]).calls = [w]) ∧
    (hasMinimizeBox os w = false →
      (MinimizeApplicationSecure os [JsValue.number (JsDouble.finite (pid : ℚ))]).value = false ∧
      minimized (MinimizeApplicationSecure os
        [JsValue.number (JsDouble.finite (pid : ℚ))]).calls = []) := by
  rw [MinimizeApplicationSecure_valid os pid h1 (by unfold INT_MAX; omega)]
  obtain ⟨e1, e2⟩ := minimizeProcess_open os pid hopen
  obtain ⟨k, hk⟩ : ∃ k, MAX_WINDOWS - pre.length = k + 1 :=
    ⟨MAX_WINDOWS - pre.length - 1, by unfold MAX_WINDOWS; omega⟩
  have ht : os.topLevel.take MAX_WINDOWS = pre ++ w :: post.take k := by
    rw [hsplit, List.take_append_eq_append_take, List.take_of_length_le (by unfold MAX_WINDOWS; omega),
      hk, List.take_succ_cons]
  rw [e1, e2, ht, searchHit_first os pid pre _ w hfirst hw]
  constructor
  · intro hm
    simp [hm]
  · intro hm
    simp [hm]

/-- C3 (amended) at `osManyWindows`: window 0 is the first visible window of process 8. -/
theorem C3_witness :
    (1 ≤ 8 ∧ 8 ≤ 2 ^ 31 - 1 ∧ osManyWindows.OpenProcess 8 ≠ 0 ∧
      osManyWindows.topLevel = [] ++ 0 :: List.range' 1 100 ∧
      ([] : List Nat).length < 100 ∧ ownedVisible osManyWindows 8 0 = true) ∧
    ((hasMinimizeBox osManyWindows 0 = true →
      (MinimizeApplicationSecure osManyWindows
        [JsValue.number (JsDouble.finite ((8 : ℕ) : ℚ))]).value = true ∧
      minimized (MinimizeApplicationSecure osManyWindows
        [JsValue.number (JsDouble.finite ((8 : ℕ) : ℚ))]).calls = [0]) ∧
    (hasMinimizeBox osManyWindows 0 = false →
      (MinimizeApplicationSecure osManyWindows
        [JsValue.number (JsDouble.finite ((8 : ℕ) : ℚ))]).value = false ∧
      minimized (MinimizeApplicationSecure osManyWindows
        [JsValue.number (JsDouble.finite ((8 : ℕ) : ℚ))]).calls = [])) :=
  ⟨by decide,
    C3_first_visible_window_decides osManyWindows 8 (by decide) (by decide) (by decide)
      [] (List.range' 1 100) 0 (by decide) (by decide) (by simp) (by decide)⟩

/-- C4: `MinimizeApplicationSecure` issues the minimize request at most once, and only to a
window among the first 100 enumerated that is visible, owned by the target process and has
the minimize box; it returns true exactly when the request was issued.  It returns false
without a minimize request when the process cannot be opened (then no window call is made at
all) and when none of the first 100 windows is an eligible window of the process. -/
theorem C4_minimize_at_most_once (os : OS) (info : List JsValue) :
    (minimized (MinimizeApplicationSecure os info).calls).length ≤ 1 ∧
    (∀ hwnd ∈ minimized (MinimizeApplicationSecure os info).calls,
      ∃ d rest, info = JsValue.number d :: rest ∧
        (∃ i, i < 100 ∧ os.topLevel[i]? = some hwnd) ∧
        os.IsWindowVisible hwnd = true ∧
        (os.GetWindowThreadProcessId hwnd).2 = static_cast_DWORD d ∧
        Nat.land (os.GetWindowStyle hwnd) WS_MINIMIZEBOX ≠ 0) ∧
    ((MinimizeApplicationSecure os info).value = true ↔
      minimized (MinimizeApplicationSecure os info).calls ≠ []) ∧
    (∀ d rest, info = JsValue.number d :: rest → os.OpenProcess (static_cast_DWORD d) = 0 →
      (MinimizeApplicationSecure os info).value = false ∧
      ∀ c ∈ (MinimizeApplicationSecure os info).calls,
        c = OsCall.OpenProcess (static_cast_DWORD d) 0) ∧
    (∀ d rest, info = JsValue.number d :: rest →
      (∀ i hwnd, i < 100 → os.topLevel[i]? = some hwnd →
        ¬ (os.IsWindowVisible hwnd = true ∧
          (os.GetWindowThreadProcessId hwnd).2 = static_cast_DWORD d ∧
          Nat.land (os.GetWindowStyle hwnd) WS_MINIMIZEBOX ≠ 0)) →
      (MinimizeApplicationSecure os info).value = false ∧
      minimized (MinimizeApplicationSecure os info).calls = []) := by
  have key : (minimized (MinimizeApplicationSecure os info).calls).length ≤ 1 ∧
      (∀ hwnd ∈ minimized (MinimizeApplicationSecure os info).calls,
        ∃ d rest, info = JsValue.number d :: rest ∧
          (∃ i, i < 100 ∧ os.topLevel[i]? = some hwnd) ∧
          os.IsWindowVisible hwnd = true ∧
          (os.GetWindowThreadProcessId hwnd).2 = static_cast_DWORD d ∧
          Nat.land (os.GetWindowStyle hwnd) WS_MINIMIZEBOX ≠ 0) ∧
      ((MinimizeApplicationSecure os info).value = true ↔
        minimized (MinimizeApplicationSecure os info).calls ≠ []) := by
    rcases MinimizeApplicationSecure_cases os info with ⟨-, h⟩ | ⟨d, rest, -, -, h⟩ | ⟨d, rest, hinfo, -, h⟩
    · rw [h]; simp [minimized]
    · rw [h]; simp [minimized]
    · rw [h]
      obtain ⟨m1, m2⟩ := minimizeProcess_minimized os (static_cast_DWORD d)
      refine ⟨m1, ?_, minimizeProcess_spec os _⟩
      intro hwnd hmem
      obtain ⟨-, a2, a3, a4⟩ := m2 hwnd hmem
      simp only [ownedVisible, Bool.and_eq_true, decide_eq_true_eq] at a3
      simp only [hasMinimizeBox, decide_eq_true_eq] at a4
      exact ⟨d, rest, hinfo, mem_take_index _ _ _ a2, a3.2, a3.1.2, a4⟩
  obtain ⟨k1, k2, k3⟩ := key
  refine ⟨k1, k2, k3, ?_, ?_⟩
  · intro d rest hinfo hclosed
    rcases MinimizeApplicationSecure_cases os info with ⟨-, h⟩ | ⟨d', rest', -, -, h⟩ | ⟨d', rest', hinfo', -, h⟩
    · rw [h]; simp
    · rw [h]; simp
    · rw [hinfo] at hinfo'
      injection hinfo' with e1 e2
      injection e1 with e1
      subst e1
      rw [h, minimizeProcess_closed os _ hclosed]
      simp
  · intro d rest hinfo hnone
    have hempty : minimized (MinimizeApplicationSecure os info).calls = [] := by
      cases hm : minimized (MinimizeApplicationSecure os info).calls with
      | nil => rfl
      | cons hwnd tl =>
        exfalso
        obtain ⟨d', rest', hinfo', ⟨i, hi, hget⟩, b1, b2, b3⟩ := k2 hwnd (by rw [hm]; simp)
        rw [hinfo] at hinfo'
        injection hinfo' with e1 e2
        injection e1 with e1
        subst e1
        exact hnone i hwnd hi hget ⟨b1, b2, b3⟩
    refine ⟨?_, hempty⟩
    cases hv : (MinimizeApplicationSecure os info).value with
    | false => rfl
    | true => exact absurd hempty (k3.mp hv)

/-- C4 at `osSample`: process 8 cannot be opened, so the call returns false after the one
failed `OpenProcess`. -/
theorem C4_witness :
    osSample.OpenProcess (static_cast_DWORD (JsDouble.finite 8)) = 0 ∧
      (MinimizeApplicationSecure osSample [JsValue.number (JsDouble.finite 8)]).value = false ∧
      ∀ c ∈ (MinimizeApplicationSecure osSample [JsValue.number (JsDouble.finite 8)]).calls,
        c = OsCall.OpenProcess (static_cast_DWORD (JsDouble.finite 8)) 0 :=
  ⟨by decide,
    (C4_minimize_at_most_once osSample [JsValue.number (JsDouble.finite 8)]).2.2.2.1
      (JsDouble.finite 8) [] rfl (by decide)⟩

theorem minimizeProcess_exception (os : OS) (pid : Nat) :
    (minimizeProcess os pid).exception = none := by
  unfold minimizeProcess
  simp only []
  split <;> rfl

theorem static_cast_DWORD_finite (q : ℚ) (h1 : 1 ≤ q) (h2 : q ≤ 2 ^ 31 - 1) :
    static_cast_DWORD (JsDouble.finite q) = ⌊q⌋.toNat ∧ 1 ≤ ⌊q⌋.toNat ∧ ⌊q⌋.toNat ≤ 2 ^ 31 - 1 := by
  have hf : Rat.floor q = ⌊q⌋ := rfl
  have a : (1 : Int) ≤ ⌊q⌋ := Int.le_floor.mpr (by exact_mod_cast h1)
  have b : ⌊q⌋ ≤ (2 ^ 31 - 1 : Int) := by
    have hb : ((⌊q⌋ : Int) : ℚ) ≤ ((2 ^ 31 - 1 : Int) : ℚ) := by
      refine le_trans (Int.floor_le q) (le_trans h2 ?_)
      norm_num
    exact_mod_cast hb
  unfold static_cast_DWORD
  simp only [hf]
  omega

/-- C5, as stated, fails: the argument 1.5 is a number that is not a positive integer, yet
the call is not rejected; it opens process 1 and searches its windows. -/
theorem C5_counterexample :
    ¬ isSafePid (JsDouble.finite (mkRat 3 2)) ∧
      (MinimizeApplicationSecure osTwoWindows
        [JsValue.number (JsDouble.finite (mkRat 3 2))]).exception = none ∧
      (MinimizeApplicationSecure osTwoWindows
        [JsValue.number (JsDouble.finite (mkRat 3 2))]).calls.take 2
          = [OsCall.OpenProcess 1 501, OsCall.CloseHandle 501] := by
  refine ⟨?_, by decide, by decide⟩
  rintro ⟨n, -, -, h⟩
  injection h with h
  have hd := congrArg Rat.den h
  rw [Rat.den_natCast] at hd
  revert hd
  decide

/-- C5, amended: a call whose argument is missing or is not a number, or is a number below 1
or above `2^31 - 1`, is rejected with a validation error, returns false and makes no OS call.
A number within `1 .. 2^31 - 1` is accepted, also when it is not integral: its fractional
part is discarded and the search runs for that process id. -/
theorem C5_range_validation (os : OS) (info : List JsValue) :
    ((∀ d rest, info ≠ JsValue.number d :: rest) →
      MinimizeApplicationSecure os info
        = { exception := some "Valid process ID required", value := false, calls := [] }) ∧
    (∀ d rest, info = JsValue.number d :: rest → outOfRange d →
      MinimizeApplicationSecure os info
        = { exception := some "Process ID out of valid range", value := false, calls := [] }) ∧
    (∀ q rest, info = JsValue.number (JsDouble.finite q) :: rest → 1 ≤ q → q ≤ 2 ^ 31 - 1 →
      MinimizeApplicationSecure os info = minimizeProcess os ⌊q⌋.toNat ∧
      (MinimizeApplicationSecure os info).exception = none ∧
      1 ≤ ⌊q⌋.toNat ∧ ⌊q⌋.toNat ≤ 2 ^ 31 - 1) := by
  refine ⟨?_, ?_, ?_⟩
  · intro hno
    rcases MinimizeApplicationSecure_cases os info with ⟨-, h⟩ | ⟨d, rest, hi, -, -⟩ | ⟨d, rest, hi, -, -⟩
    · exact h
    · exact absurd hi (hno d rest)
    · exact absurd hi (hno d rest)
  · intro d rest hinfo hout
    rcases MinimizeApplicationSecure_cases os info with ⟨hno, -⟩ | ⟨d', rest', -, -, h⟩ | ⟨d', rest', hi, hin, -⟩
    · exact absurd hinfo (hno d rest)
    · exact h
    · rw [hinfo] at hi
      injection hi with e1 e2
      injection e1 with e1
      subst e1
      exact absurd hout hin
  · intro q rest hinfo h1 h2
    obtain ⟨c1, c2, c3⟩ := static_cast_DWORD_finite q h1 h2
    have hin : ¬ outOfRange (JsDouble.finite q) := by
      simp only [outOfRange, not_or, not_lt]
      exact ⟨h1, h2⟩
    rcases MinimizeApplicationSecure_cases os info with ⟨hno, -⟩ | ⟨d', rest', hi, hout, -⟩ | ⟨d', rest', hi, -, h⟩
    · exact absurd hinfo (hno _ rest)
    · rw [hinfo] at hi
      injection hi with e1 e2
      injection e1 with e1
      subst e1
      exact absurd hout hin
    · rw [hinfo] at hi
      injection hi with e1 e2
      injection e1 with e1
      subst e1
      rw [h, c1]
      exact ⟨rfl, minimizeProcess_exception os _, c2, c3⟩

/-- C5 (amended) at the argument 2.5: accepted, and the search runs for process 2. -/
theorem C5_witness :
    ((1 : ℚ) ≤ 5 / 2 ∧ (5 / 2 : ℚ) ≤ 2 ^ 31 - 1) ∧
      (MinimizeApplicationSecure osTwoWindows [JsValue.number (JsDouble.finite (5 / 2))]
          = minimizeProcess osTwoWindows ⌊(5 / 2 : ℚ)⌋.toNat ∧
        (MinimizeApplicationSecure osTwoWindows
          [JsValue.number (JsDouble.finite (5 / 2))]).exception = none ∧
        1 ≤ ⌊(5 / 2 : ℚ)⌋.toNat ∧ ⌊(5 / 2 : ℚ)⌋.toNat ≤ 2 ^ 31 - 1) :=
  ⟨by norm_num,
    (C5_range_validation osTwoWindows [JsValue.number (JsDouble.finite (5 / 2))]).2.2
      (5 / 2) [] rfl (by norm_num) (by norm_num)⟩

/-! ## The text codec -/

theorem SafeWideToUTF8_unfold (os : OS) (w : List Nat) :
    SafeWideToUTF8 os w =
      if w = [] then []
      else if w.length > INT_MAX then PATH_TOO_LONG
      else if sizeNeeded os w ≤ 0 then CONVERSION_FAILED
      else if sizeNeeded os w > 65536 then PATH_TOO_LONG
      else if (conversion os w).1 ≤ 0 then CONVERSION_FAILED
      else convertedBytes os w := rfl

theorem readN_filled_exact (size : Nat) (t : List Nat) (h : t.length ≤ size) :
    readN (filled size t) t.length = t := by
  rw [readN_filled size t t.length h]
  simp

/-- C6: `SafeWideToUTF8 w` is empty when `w` is empty; `<path_too_long>` when the length of
`w` exceeds the largest `int` or the required output size exceeds 65536; `<conversion_failed>`
when the primitive reports a non-positive size or result; otherwise its length is the count
the primitive reported and it is exactly the bytes the primitive stored (for a primitive
that stores as many bytes as it reports, within the buffer it was given). -/
theorem C6_SafeWideToUTF8_outcomes (os : OS) (w : List Nat) :
    (w = [] → SafeWideToUTF8 os w = []) ∧
    (w ≠ [] → w.length > 2 ^ 31 - 1 → SafeWideToUTF8 os w = PATH_TOO_LONG) ∧
    (w ≠ [] → w.length ≤ 2 ^ 31 - 1 → sizeNeeded os w ≤ 0 →
      SafeWideToUTF8 os w = CONVERSION_FAILED) ∧
    (w ≠ [] → w.length ≤ 2 ^ 31 - 1 → sizeNeeded os w > 65536 →
      SafeWideToUTF8 os w = PATH_TOO_LONG) ∧
    (w ≠ [] → w.length ≤ 2 ^ 31 - 1 → 0 < sizeNeeded os w → sizeNeeded os w ≤ 65536 →
      (conversion os w).1 ≤ 0 → SafeWideToUTF8 os w = CONVERSION_FAILED) ∧
    (w ≠ [] → w.length ≤ 2 ^ 31 - 1 → 0 < sizeNeeded os w → sizeNeeded os w ≤ 65536 →
      0 < (conversion os w).1 →
        (SafeWideToUTF8 os w).length = (conversion os w).1.toNat ∧
        (((conversion os w).2.length : Int) = (conversion os w).1 →
          (conversion os w).1 ≤ sizeNeeded os w →
          SafeWideToUTF8 os w = (conversion os w).2)) := by
  rw [SafeWideToUTF8_unfold]
  refine ⟨?_, ?_, ?_, ?_, ?_, ?_⟩
  · intro h
    simp [h]
  · intro h hl
    have : w.length > INT_MAX := by unfold INT_MAX; omega
    simp [h, this]
  · intro h hl hs
    have : ¬ w.length > INT_MAX := by unfold INT_MAX; omega
    simp [h, this, hs]
  · intro h hl hs
    have : ¬ w.length > INT_MAX := by unfold INT_MAX; omega
    have h0 : ¬ sizeNeeded os w ≤ 0 := by omega
    simp [h, this, h0, hs]
  · intro h hl hs0 hs1 hr
    have : ¬ w.length > INT_MAX := by unfold INT_MAX; omega
    have h0 : ¬ sizeNeeded os w ≤ 0 := by omega
    have h1 : ¬ sizeNeeded os w > 65536 := by omega
    simp [h, this, h0, h1, hr]
  · intro h hl hs0 hs1 hr
    have : ¬ w.length > INT_MAX := by unfold INT_MAX; omega
    have h0 : ¬ sizeNeeded os w ≤ 0 := by omega
    have h1 : ¬ sizeNeeded os w > 65536 := by omega
    have h2 : ¬ (conversion os w).1 ≤ 0 := by omega
    simp only [h, this, h0, h1, h2, if_false]
    refine ⟨by unfold convertedBytes; rw [readN_length], ?_⟩
    intro hlen hfit
    have e : (conversion os w).1.toNat = (conversion os w).2.length := by omega
    unfold convertedBytes
    rw [e]
    exact readN_filled_exact _ _ (by omega)

/-- C6 at `osTwoWindows`: the two code units of `Hi` are converted to exactly those bytes. -/
theorem C6_witness :
    (conversion osTwoWindows [72, 105]).2 = [72, 105] ∧
      (SafeWideToUTF8 osTwoWindows [72, 105]).length = (conversion osTwoWindows [72, 105]).1.toNat ∧
      SafeWideToUTF8 osTwoWindows [72, 105] = (conversion osTwoWindows [72, 105]).2 :=
  ⟨by decide,
    ((C6_SafeWideToUTF8_outcomes osTwoWindows [72, 105]).2.2.2.2.2
      (by decide) (by decide) (by decide) (by decide) (by decide)).1,
    ((C6_SafeWideToUTF8_outcomes osTwoWindows [72, 105]).2.2.2.2.2
      (by decide) (by decide) (by decide) (by decide) (by decide)).2 (by decide) (by decide)⟩

/-- C7, as stated, fails: the wide string `<path_too_long>` is converted successfully (it is
neither too long nor does the primitive fail), and the output equals the sentinel. -/
theorem C7_counterexample :
    Converted osTwoWindows (lit "<path_too_long>") ∧
      ¬ TooLong osTwoWindows (lit "<path_too_long>") ∧
      ¬ PrimitiveFailed osTwoWindows (lit "<path_too_long>") ∧
      SafeWideToUTF8 osTwoWindows (lit "<path_too_long>") = PATH_TOO_LONG := by
  unfold Converted TooLong PrimitiveFailed
  decide

/-- C7, amended: the output is empty exactly when `w` is empty; it equals `<path_too_long>`
only if `w` was too long to handle or the conversion succeeded with converted bytes that
spell that text; it equals `<conversion_failed>` only if the primitive failed or the
conversion succeeded with converted bytes that spell that text. -/
theorem C7_sentinels_in_band (os : OS) (w : List Nat) :
    (SafeWideToUTF8 os w = [] ↔ w = []) ∧
    (SafeWideToUTF8 os w = PATH_TOO_LONG →
      TooLong os w ∨ (Converted os w ∧ convertedBytes os w = PATH_TOO_LONG)) ∧
    (SafeWideToUTF8 os w = CONVERSION_FAILED →
      PrimitiveFailed os w ∨ (Converted os w ∧ convertedBytes os w = CONVERSION_FAILED)) := by
  have hne1 : PATH_TOO_LONG ≠ [] := by decide
  have hne2 : CONVERSION_FAILED ≠ [] := by decide
  have hne3 : CONVERSION_FAILED ≠ PATH_TOO_LONG := by decide
  rw [SafeWideToUTF8_unfold]
  unfold TooLong PrimitiveFailed Converted
  by_cases h : w = []
  · simp [h, hne1.symm, hne2.symm]
  · rw [if_neg h]
    by_cases hl : w.length > INT_MAX
    · have : w.length > 2 ^ 31 - 1 := by unfold INT_MAX at hl; omega
      rw [if_pos hl]
      exact ⟨⟨fun he => absurd he hne1, fun he => absurd he h⟩, fun _ => Or.inl (Or.inl this),
        fun he => absurd he.symm hne3⟩
    · have hl2 : w.length ≤ 2 ^ 31 - 1 := by unfold INT_MAX at hl; omega
      rw [if_neg hl]
      by_cases hs : sizeNeeded os w ≤ 0
      · rw [if_pos hs]
        exact ⟨⟨fun he => absurd he hne2, fun he => absurd he h⟩, fun he => absurd he hne3,
          fun _ => Or.inl (Or.inl hs)⟩
      · rw [if_neg hs]
        by_cases hs2 : sizeNeeded os w > 65536
        · rw [if_pos hs2]
          exact ⟨⟨fun he => absurd he hne1, fun he => absurd he h⟩, fun _ => Or.inl (Or.inr hs2),
            fun he => absurd he.symm hne3⟩
        · rw [if_neg hs2]
          by_cases hr : (conversion os w).1 ≤ 0
          · rw [if_pos hr]
            exact ⟨⟨fun he => absurd he hne2, fun he => absurd he h⟩, fun he => absurd he hne3,
              fun _ => Or.inl (Or.inr hr)⟩
          · rw [if_neg hr]
            have hc : w ≠ [] ∧ w.length ≤ 2 ^ 31 - 1 ∧ 0 < sizeNeeded os w ∧
                sizeNeeded os w ≤ 65536 ∧ 0 < (conversion os w).1 :=
              ⟨h, hl2, by omega, by omega, by omega⟩
            refine ⟨⟨?_, fun he => absurd he h⟩, fun he => Or.inr ⟨hc, he⟩,
              fun he => Or.inr ⟨hc, he⟩⟩
            intro he
            have hlen : (convertedBytes os w).length = (conversion os w).1.toNat := by
              unfold convertedBytes
              rw [readN_length]
            rw [he] at hlen
            simp at hlen
            omega

/-- C7 (amended) at the wide string `<path_too_long>`: the output equals the sentinel, and
it does so through a successful conversion. -/
theorem C7_witness :
    SafeWideToUTF8 osTwoWindows (lit "<path_too_long>") = PATH_TOO_LONG ∧
      (TooLong osTwoWindows (lit "<path_too_long>") ∨
        (Converted osTwoWindows (lit "<path_too_long>") ∧
          convertedBytes osTwoWindows (lit "<path_too_long>") = PATH_TOO_LONG)) :=
  ⟨by decide, (C7_sentinels_in_band osTwoWindows (lit "<path_too_long>")).2.1 (by decide)⟩

/-! ## Window listing -/

theorem readCStr_filled (size : Nat) (t : List Nat) (hnul : 0 ∉ t) (hlen : t.length ≤ size)
    (fuel i : Nat) (hfuel : t.length - i < fuel) :
    readCStr (filled size t) fuel i = t.drop i := by
  induction fuel generalizing i with
  | zero => omega
  | succ fuel ih =>
    unfold readCStr
    by_cases hi : i < t.length
    · have hb : filled size t i = t[i] := by
        have : i < size := by omega
        simp [filled, this, List.getD, List.getElem?_eq_getElem hi]
      have hne : t[i] ≠ 0 := fun h0 => hnul (h0 ▸ List.getElem_mem hi)
      rw [hb, if_neg hne, ih (i + 1) (by omega)]
      exact (List.drop_eq_getElem_cons hi).symm
    · have hb : filled size t i = 0 := by
        simp only [filled]
        split
        · simp [List.getD, List.getElem?_eq_none (by omega : t.length ≤ i)]
        · rfl
      rw [hb, if_pos rfl, List.drop_eq_nil_of_le (by omega)]

theorem title_read (os : OS) (hwnd : Nat) (hnul : 0 ∉ os.windowText hwnd) :
    readCStr (GetWindowTextW os hwnd 256) 256 0 = (os.windowText hwnd).take 255 := by
  unfold GetWindowTextW
  have h1 : 0 ∉ (os.windowText hwnd).take 255 := fun h => hnul (List.mem_of_mem_take h)
  have h2 : ((os.windowText hwnd).take 255).length ≤ 255 := by
    rw [List.length_take]
    omega
  rw [readCStr_filled 256 _ h1 (by omega) 256 0 (by omega)]
  rfl

theorem EnumWindowsProc_eq (os : OS) (hwnd : Nat) (ws : List WindowInfo)
    (hnul : 0 ∉ os.windowText hwnd) :
    EnumWindowsProc os hwnd ws =
      (true, ws ++ (if os.IsWindowVisible hwnd = true ∧ os.windowText hwnd ≠ [] then
        [{ hwnd := hwnd, processId := (os.GetWindowThreadProcessId hwnd).2,
           title := (os.windowText hwnd).take 255 }] else [])) := by
  unfold EnumWindowsProc
  simp only [title_read os hwnd hnul]
  by_cases hv : os.IsWindowVisible hwnd = false
  · simp [hv]
  · have hv2 : os.IsWindowVisible hwnd = true := by simpa using hv
    by_cases ht : os.windowText hwnd = []
    · simp [hv2, ht]
    · have hl : ¬ ((os.windowText hwnd).take 255).length = 0 := by
        rw [List.length_take]
        have : 0 < (os.windowText hwnd).length := List.length_pos.mpr ht
        omega
      simp [hv2, ht, hl]

theorem EnumWindows_list (os : OS) (l : List Nat) (ws : List WindowInfo)
    (hnul : ∀ hwnd ∈ l, 0 ∉ os.windowText hwnd) :
    EnumWindows (EnumWindowsProc os) l ws =
      ws ++ (l.filter (fun hwnd => os.IsWindowVisible hwnd && decide (os.windowText hwnd ≠ []))).map
        (fun hwnd => { hwnd := hwnd, processId := (os.GetWindowThreadProcessId hwnd).2,
                       title := (os.windowText hwnd).take 255 }) := by
  induction l generalizing ws with
  | nil => simp [EnumWindows]
  | cons hwnd rest ih =>
    unfold EnumWindows
    rw [EnumWindowsProc_eq os hwnd ws (hnul hwnd (by simp))]
    simp only [if_true]
    rw [ih _ (fun x hx => hnul x (by simp [hx]))]
    by_cases hc : os.IsWindowVisible hwnd = true ∧ os.windowText hwnd ≠ []
    · have : (os.IsWindowVisible hwnd && decide (os.windowText hwnd ≠ [])) = true := by
        simp [hc.1, hc.2]
      rw [if_pos hc, List.filter_cons, if_pos this, List.map_cons, List.append_assoc,
        List.singleton_append]
    · have : ¬ (os.IsWindowVisible hwnd && decide (os.windowText hwnd ≠ [])) = true := by
        intro h
        simp only [Bool.and_eq_true, decide_eq_true_eq] at h
        exact hc h
      rw [if_neg hc, List.filter_cons, if_neg this, List.append_nil]

theorem filled_terminated (size : Nat) (b : List Nat) :
    filled size (b ++ [0]) = filled size b := by
  funext i
  unfold filled
  split
  · by_cases hi : i < b.length
    · simp [List.getD, List.getElem?_append_left hi]
    · have h1 : (b ++ [0])[i]?.getD 0 = 0 := by
        by_cases he : i = b.length
        · subst he
          simp
        · rw [List.getElem?_eq_none (by simp; omega)]
          rfl
      have h2 : b[i]?.getD 0 = 0 := by
        rw [List.getElem?_eq_none (by omega)]
        rfl
      simp only [List.getD, List.get?_eq_getElem?]
      rw [h1, h2]
  · rfl

theorem titleToUTF8_eq (os : OS) (t b : List Nat) (h : EncodesAs os t b) :
    titleToUTF8 os t = some b := by
  obtain ⟨-, hnul, hsize, hstored⟩ := h
  have hpos : ¬ (os.WideCharToMultiByte t (-1) 0).1 ≤ 0 := by omega
  have hnat : (os.WideCharToMultiByte t (-1) 0).1.toNat = b.length + 1 := by omega
  unfold titleToUTF8
  simp only [hpos, if_false, hnat, hstored]
  have hmem : 0 ∈ readN (filled (b.length + 1) (b ++ [0])) (b.length + 1) := by
    have := readN_filled_exact (b.length + 1) (b ++ [0]) (by simp)
    rw [List.length_append, List.length_singleton] at this
    rw [this]
    simp
  rw [if_pos hmem, filled_terminated,
    readCStr_filled (b.length + 1) b hnul (by omega) (b.length + 1) 0 (by omega)]
  rfl

theorem convertWindows_eq (os : OS) (enc : List Nat → List Nat) (ws : List WindowInfo)
    (h : ∀ w ∈ ws, EncodesAs os w.title (enc w.title)) :
    convertWindows os ws = some (ws.map (fun w =>
      { hwnd := w.hwnd, processId := w.processId, title := enc w.title })) := by
  induction ws with
  | nil => rfl
  | cons w rest ih =>
    unfold convertWindows
    rw [titleToUTF8_eq os w.title (enc w.title) (h w (by simp)),
      ih (fun x hx => h x (by simp [hx]))]
    rfl

/-- C10, as stated, fails: a visible window whose title has 256 code units, which the
primitive converts to 256 bytes, is returned with a title of 255 bytes, not with its title. -/
theorem C10_counterexample :
    osLongTitle.IsWindowVisible 1 = true ∧
      osLongTitle.windowText 1 = List.replicate 256 65 ∧
      EncodesAs osLongTitle (osLongTitle.windowText 1) (List.replicate 256 65) ∧
      (GetWindows osLongTitle []).1
        = some [{ hwnd := 1, processId := 7, title := List.replicate 255 65 }] ∧
      (GetWindows osLongTitle []).1
        ≠ some [{ hwnd := 1, processId := 7, title := List.replicate 256 65 }] := by
  decide

/-- C10, amended: for every sequence of top-level windows (whose texts are C strings) and
every conversion `enc` that the primitive carries out on the titles listed, `GetWindows`
returns, in enumeration order, exactly the windows that are visible and whose title is
non-empty, each with its handle, owning process id and the conversion of its title cut to
the first 255 code units; no returned window has an empty title or was invisible, and
nothing held from an earlier call is in the result. -/
theorem C10_visible_titled_windows (os : OS) (earlier : List WindowInfo)
    (enc : List Nat → List Nat)
    (hnul : ∀ hwnd ∈ os.topLevel, 0 ∉ os.windowText hwnd)
    (hprim : ∀ hwnd ∈ os.topLevel, os.IsWindowVisible hwnd = true → os.windowText hwnd ≠ [] →
      EncodesAs os ((os.windowText hwnd).take 255) (enc ((os.windowText hwnd).take 255))) :
    (GetWindows os earlier).1 =
        some ((os.topLevel.filter (fun hwnd => os.IsWindowVisible hwnd &&
            decide (os.windowText hwnd ≠ []))).map
          (fun hwnd => { hwnd := hwnd, processId := (os.GetWindowThreadProcessId hwnd).2,
                         title := enc ((os.windowText hwnd).take 255) })) ∧
      (GetWindows os earlier).2 =
        (os.topLevel.filter (fun hwnd => os.IsWindowVisible hwnd &&
            decide (os.windowText hwnd ≠ []))).map
          (fun hwnd => { hwnd := hwnd, processId := (os.GetWindowThreadProcessId hwnd).2,
                         title := (os.windowText hwnd).take 255 }) ∧
      ∀ objs, (GetWindows os earlier).1 = some objs →
        ∀ w ∈ objs, w.title ≠ [] ∧ os.IsWindowVisible w.hwnd = true := by
  have h2 : (GetWindows os earlier).2 =
      (os.topLevel.filter (fun hwnd => os.IsWindowVisible hwnd &&
          decide (os.windowText hwnd ≠ []))).map
        (fun hwnd => { hwnd := hwnd, processId := (os.GetWindowThreadProcessId hwnd).2,
                       title := (os.windowText hwnd).take 255 }) := by
    unfold GetWindows vector_clear
    simp only []
    rw [EnumWindows_list os os.topLevel [] hnul]
    simp
  have hshown : ∀ hwnd ∈ os.topLevel.filter (fun hwnd => os.IsWindowVisible hwnd &&
      decide (os.windowText hwnd ≠ [])),
      hwnd ∈ os.topLevel ∧ os.IsWindowVisible hwnd = true ∧ os.windowText hwnd ≠ [] := by
    intro hwnd hmem
    have hf := List.mem_filter.mp hmem
    have hc := hf.2
    simp only [Bool.and_eq_true, decide_eq_true_eq] at hc
    exact ⟨hf.1, hc.1, hc.2⟩
  have h1 : (GetWindows os earlier).1 =
      some ((os.topLevel.filter (fun hwnd => os.IsWindowVisible hwnd &&
          decide (os.windowText hwnd ≠ []))).map
        (fun hwnd => { hwnd := hwnd, processId := (os.GetWindowThreadProcessId hwnd).2,
                       title := enc ((os.windowText hwnd).take 255) })) := by
    have hc : (GetWindows os earlier).1 = convertWindows os (GetWindows os earlier).2 := rfl
    rw [hc, h2, convertWindows_eq os enc]
    · rw [List.map_map]
      rfl
    · intro w hw
      rw [List.mem_map] at hw
      obtain ⟨hwnd, hmem, rfl⟩ := hw
      obtain ⟨ht, hv, hne⟩ := hshown hwnd hmem
      exact hprim hwnd ht hv hne
  refine ⟨h1, h2, ?_⟩
  intro objs hobjs w hw
  rw [h1, Option.some.injEq] at hobjs
  rw [← hobjs, List.mem_map] at hw
  obtain ⟨hwnd, hmem, rfl⟩ := hw
  obtain ⟨ht, hv, hne⟩ := hshown hwnd hmem
  exact ⟨(hprim hwnd ht hv hne).1, hv⟩

/-- C10 (amended) at `osTitled`: of the four windows, `Calculator` and `Notes` are returned,
each with its title; the hidden window and the untitled one are not. -/
theorem C10_witness :
    ((∀ hwnd ∈ osTitled.topLevel, 0 ∉ osTitled.windowText hwnd) ∧
      (∀ hwnd ∈ osTitled.topLevel, osTitled.IsWindowVisible hwnd = true →
        osTitled.windowText hwnd ≠ [] →
        EncodesAs osTitled ((osTitled.windowText hwnd).take 255)
          (id ((osTitled.windowText hwnd).take 255)))) ∧
      ((GetWindows osTitled []).1 =
          some ((osTitled.topLevel.filter (fun hwnd => osTitled.IsWindowVisible hwnd &&
              decide (osTitled.windowText hwnd ≠ []))).map
            (fun hwnd => { hwnd := hwnd,
                           processId := (osTitled.GetWindowThreadProcessId hwnd).2,
                           title := id ((osTitled.windowText hwnd).take 255) })) ∧
        (GetWindows osTitled []).2 =
          (osTitled.topLevel.filter (fun hwnd => osTitled.IsWindowVisible hwnd &&
              decide (osTitled.windowText hwnd ≠ []))).map
            (fun hwnd => { hwnd := hwnd,
                           processId := (osTitled.GetWindowThreadProcessId hwnd).2,
                           title := (osTitled.windowText hwnd).take 255 }) ∧
        ∀ objs, (GetWindows osTitled []).1 = some objs →
          ∀ w ∈ objs, w.title ≠ [] ∧ osTitled.IsWindowVisible w.hwnd = true) :=
  ⟨⟨by decide, by decide⟩,
    C10_visible_titled_windows osTitled [] id (by decide) (by decide)⟩

end SwitchFast
